import Mathlib

/-!
Verification development for the AILAW memoization and conversation
orchestration engine (`src/neuralex-main` and `src/bot`).

The Python sources are shallowly embedded: pure functions become Lean
functions; stateful code becomes explicit state passing; Python floats
(ratings, similarity scores, timestamps) are modelled as rationals;
fallible operations return `Option`/`Except`.  External collaborators
(the Chroma vector index, Redis, the OpenAI generation backend, the
hash functions) are modelled as explicit parameters with their
documented deterministic behaviour.
-/

/-- A question/answer record, after `QAEntry` in
`qa_knowledge_base.py`.  Timestamps (`created_at`, `last_used`) are
rationals standing for the ISO timestamps of the source. -/
structure QAEntry where
  id : String
  question : String
  answer : String
  sources : List String
  tags : List String
  rating : ℚ
  rating_count : ℕ
  created_at : ℚ
  last_used : ℚ
  usage_count : ℕ
  session_ids : List String
deriving DecidableEq, Repr

/-- Substring containment on character lists, modelling Python's
`keyword in text`. -/
def containsSub (s sub : List Char) : Bool :=
  (List.range (s.length + 1)).any (fun i => sub.isPrefixOf (s.drop i))

/-- Lower-casing of a character covering the ASCII and Cyrillic
letters used by the keyword tables, modelling Python's `str.lower`
on the alphabets that occur in the source. -/
def lowerChar (c : Char) : Char :=
  if 'A' ≤ c ∧ c ≤ 'Z' then Char.ofNat (c.toNat + 32)
  else if 'А' ≤ c ∧ c ≤ 'Я' then Char.ofNat (c.toNat + 32)
  else if c = 'Ё' then 'ё'
  else c

/-- Lower-casing of a string (see `lowerChar`). -/
def lowerStr (s : String) : String :=
  ⟨s.data.map lowerChar⟩

/-- The keyword table of `QAKnowledgeBase._extract_tags`
(`legal_keywords`), in the source's iteration order. -/
def legalKeywords : List (String × List String) :=
  [("увольнение", ["уволь", "увольн", "расторж", "работ"]),
   ("трудовое_право", ["труд", "работ", "зарплат", "отпуск"]),
   ("семейное_право", ["брак", "развод", "алимент", "семь"]),
   ("гражданское_право", ["договор", "собственност", "наследств"]),
   ("уголовное_право", ["преступлен", "наказан", "уголовн"]),
   ("административное", ["штраф", "админ", "нарушен"]),
   ("жилищное_право", ["квартир", "дом", "жилищ", "аренд"]),
   ("налоговое_право", ["налог", "ндфл", "декларац"])]

/-- `QAKnowledgeBase._extract_tags`: deterministic keyword-category
matching over question+answer text, capped at 5 tags. -/
def extractTags (question answer : String) : List String :=
  let text := lowerStr (question ++ " " ++ answer)
  (((legalKeywords.filter
      (fun p => p.2.any (fun kw => containsSub text.data kw.data))).map
    (fun p => p.1)).take 5)

/-- The `QAEntry` built by `QAKnowledgeBase.save_qa_pair`: initial
rating as given, `rating_count` 0, `usage_count` 1, `last_used` equal
to `created_at`, and the creating session (if any) as the only member
of `session_ids`. -/
def mkQAEntry (qaId question answer : String) (sources : List String)
    (sessionId : Option String) (initialRating : ℚ) (now : ℚ) : QAEntry :=
  { id := qaId
    question := question
    answer := answer
    sources := sources
    tags := extractTags question answer
    rating := initialRating
    rating_count := 0
    created_at := now
    last_used := now
    usage_count := 1
    session_ids := match sessionId with | some s => [s] | none => [] }

/-- `QAKnowledgeBase._get_qa_by_id` over the id-keyed store, modelled
as the first entry of the list with the given id. -/
def getQAById (kb : List QAEntry) (qaId : String) : Option QAEntry :=
  kb.find? (fun e => e.id == qaId)

/-- `QAKnowledgeBase._update_qa_entry`: the id-keyed store and the
similarity index end up holding `e` for `e.id`; the store is modelled
as id-keyed, so the update is in place. -/
def updateQAEntryInKB (kb : List QAEntry) (e : QAEntry) : List QAEntry :=
  kb.map (fun x => if x.id == e.id then e else x)

/-- The rating update of `QAKnowledgeBase.update_rating` on one entry:
`new_total = rating * rating_count + new_rating`,
`rating_count += 1`, `rating = new_total / rating_count`. -/
def updateRatingEntry (e : QAEntry) (newRating : ℤ) : QAEntry :=
  let currentTotal : ℚ := e.rating * (e.rating_count : ℚ)
  let newTotal : ℚ := currentTotal + (newRating : ℚ)
  let newCount : ℕ := e.rating_count + 1
  { e with rating_count := newCount, rating := newTotal / (newCount : ℚ) }

/-- `QAKnowledgeBase.update_rating`: look the entry up by id; on
success apply the running-mean update and write the entry back,
returning `true`; return `false` when the id is unknown. -/
def update_rating (kb : List QAEntry) (qaId : String) (newRating : ℤ) :
    Bool × List QAEntry :=
  match getQAById kb qaId with
  | none => (false, kb)
  | some e => (true, updateQAEntryInKB kb (updateRatingEntry e newRating))

/-- A sequence of `update_rating` calls on the same id, conjoining the
success results. -/
def rateAll (kb : List QAEntry) (qaId : String) : List ℤ → Bool × List QAEntry
  | [] => (true, kb)
  | r :: rs =>
      let step := update_rating kb qaId r
      let rest := rateAll step.2 qaId rs
      (step.1 && rest.1, rest.2)

/-- `QAKnowledgeBase._update_usage_stats`: bump `usage_count` and set
`last_used` on the entry with the given id, when it exists. -/
def updateUsageStats (kb : List QAEntry) (qaId : String) (now : ℚ) :
    List QAEntry :=
  match getQAById kb qaId with
  | none => kb
  | some e =>
      updateQAEntryInKB kb
        { e with usage_count := e.usage_count + 1, last_used := now }

/-- C1, counterexample state: one fresh entry with initial rating 3 and
`rating_count` 0. -/
def eC1 : QAEntry := mkQAEntry "q1" "вопрос" "ответ" [] (some "s1") 3 0

/-- C1, counterexample store. -/
def kbC1 : List QAEntry := [eC1]

/-- Insertion step of a deterministic descending sort by a rational
key (model of the similarity ranking of the external Chroma index). -/
def insertByDesc {α : Type} (f : α → ℚ) (x : α) : List α → List α
  | [] => [x]
  | y :: ys => if f y < f x then x :: y :: ys else y :: insertByDesc f x ys

/-- Deterministic descending sort by a rational key. -/
def sortByDesc {α : Type} (f : α → ℚ) : List α → List α
  | [] => []
  | x :: xs => insertByDesc f x (sortByDesc f xs)

/-- Model of the external
`vector_store.similarity_search_with_score(question, k, score_threshold)`
call of `find_similar_qa`: the entries whose modelled similarity to the
question reaches the threshold, most similar first, truncated to the
top k.  `sim` abstracts the embedding similarity. -/
def similaritySearch (sim : String → String → ℚ) (kb : List QAEntry)
    (question : String) (k : ℕ) (scoreThreshold : ℚ) : List (QAEntry × ℚ) :=
  (sortByDesc (fun p => p.2)
    ((kb.map (fun e => (e, sim question e.question))).filter
      (fun p => decide (scoreThreshold ≤ p.2)))).take k

/-- `QAKnowledgeBase.find_similar_qa`: run the top-5 similarity search,
return the first result whose rating reaches `minRating` after bumping
its usage statistics (the documented read-path side effect);
otherwise report no hit and leave the store unchanged. -/
def find_similar_qa (sim : String → String → ℚ) (kb : List QAEntry)
    (question : String) (similarityThreshold minRating : ℚ) (now : ℚ) :
    Option QAEntry × List QAEntry :=
  match (similaritySearch sim kb question 5 similarityThreshold).find?
      (fun p => decide (minRating ≤ p.1.rating)) with
  | some p => (some p.1, updateUsageStats kb p.1.id now)
  | none => (none, kb)

/-- C4, witness store: a single entry failing the rating test. -/
def kbC4 : List QAEntry := [mkQAEntry "i4" "впр" "отв" [] (some "s") 3 0]

/-- C1, witness state: fresh entry with initial rating 3, count 0. -/
def eC1w : QAEntry := mkQAEntry "q2" "вопрос" "ответ" [] (some "s1") 3 0

/-- C1, witness store. -/
def kbC1w : List QAEntry := [eC1w]

/-- C10, witness: similarity oracle giving full similarity. -/
def simC10 : String → String → ℚ := fun _ _ => 1

/-- C10, witness entry: freshly saved, rating 5. -/
def eC10 : QAEntry := mkQAEntry "i10" "впр" "отв" [] (some "s") 5 0

/-- C10, witness store. -/
def kbC10 : List QAEntry := [eC10]

/-- The trimming loop of `RateLimiter.is_allowed`: pop recorded
timestamps from the front while `current_time - t > time_window`. -/
def rateLimiterTrim (window now : ℚ) (queue : List ℚ) : List ℚ :=
  queue.dropWhile (fun t => decide (window < now - t))

/-- `RateLimiter.is_allowed` on one identity's queue: trim old
timestamps, deny when the queue already holds `max_requests` entries,
otherwise record the current time and admit. -/
def isAllowed (maxRequests : ℕ) (window : ℚ) (queue : List ℚ) (now : ℚ) :
    Bool × List ℚ :=
  let q := rateLimiterTrim window now queue
  if maxRequests ≤ q.length then (false, q) else (true, q ++ [now])

/-- The module-level limiter of `rate_limiter.py`:
`RateLimiter(max_requests=15, time_window=60)`. -/
def globalRateLimiterMaxRequests : ℕ := 15

/-- The module-level limiter's window (seconds). -/
def globalRateLimiterWindow : ℚ := 60

/-- A run of `is_allowed` calls at the given times, starting from the
given queue, collecting the admission results. -/
def runLimiter (maxRequests : ℕ) (window : ℚ) (queue : List ℚ) :
    List ℚ → List Bool
  | [] => []
  | t :: ts =>
      let r := isAllowed maxRequests window queue t
      r.1 :: runLimiter maxRequests window r.2 ts

/-- Boolean check that a list of timestamps is ascending. -/
def sortedAsc : List ℚ → Bool
  | [] => true
  | [_] => true
  | a :: b :: t => decide (a ≤ b) && sortedAsc (b :: t)

/-- A value stored in the exact-match cache, with an optional absolute
expiry time: Redis `setex` stores with a TTL, plain `set` without. -/
structure CacheEntry where
  value : String
  expiresAt : Option ℚ
deriving DecidableEq, Repr

/-- Overwrite-or-insert on a string-keyed association list (the
observable behaviour of a Redis `set`). -/
def setA {α : Type} : List (String × α) → String → α → List (String × α)
  | [], k, v => [(k, v)]
  | (k', v') :: t, k, v =>
      if k' == k then (k, v) :: t else (k', v') :: setA t k v

/-- Lookup on a string-keyed association list. -/
def lookupA {α : Type} (l : List (String × α)) (k : String) : Option α :=
  (l.find? (fun p => p.1 == k)).map (fun p => p.2)

/-- `RedisCache.set`: `setex` with an absolute expiry when a TTL is
supplied, plain `set` with no expiry otherwise. -/
def cacheSetOp (c : List (String × CacheEntry)) (k v : String)
    (ttl : Option ℚ) (now : ℚ) : List (String × CacheEntry) :=
  match ttl with
  | some t => setA c k ⟨v, some (now + t)⟩
  | none => setA c k ⟨v, none⟩

/-- `RedisCache.get`: Redis yields nothing for an absent or expired
key, and the wrapper maps a falsy (empty) value to `None`
(`return value if value else None`). -/
def cacheGetOp (c : List (String × CacheEntry)) (k : String) (now : ℚ) :
    Option String :=
  match lookupA c k with
  | none => none
  | some e =>
      match e.expiresAt with
      | some exp =>
          if now < exp then (if e.value = "" then none else some e.value)
          else none
      | none => if e.value = "" then none else some e.value

/-- The raw hashed material of `RedisCache.make_cache_key`:
`f"{session_id}:{query}"` — the full query, not a prefix. -/
def keyRaw (query sessionId : String) : String := sessionId ++ ":" ++ query

/-- `RedisCache.make_cache_key`: `"llm_cache:" + sha256(key_raw)`,
with the SHA-256 hex digest abstracted as a string function `h`. -/
def makeCacheKey (h : String → String) (query sessionId : String) : String :=
  "llm_cache:" ++ h (keyRaw query sessionId)

/-- The role of a chat message. -/
inductive Role
  | user
  | assistant
deriving DecidableEq, Repr

/-- One message of a session history. -/
structure Msg where
  role : Role
  text : String
deriving DecidableEq, Repr

/-- The failure causes of the external generation backend, after the
error taxonomy of the spec: unavailability of the supplementary corpus
versus OpenAI/API errors versus anything else.  The orchestrator code
never inspects the cause. -/
inductive GenFailure
  | corpusUnavailable
  | apiError
  | otherError
deriving DecidableEq, Repr

/-- Observable events of one orchestrate run: the semantic knowledge
cache query, the exact-match cache query, the generation backend
invocation — each with its outcome. -/
inductive Event
  | semLookup (hit : Bool)
  | exactLookup (hit : Bool)
  | genCall (ok : Bool)
deriving DecidableEq, Repr

/-- The final state of one orchestrate run. -/
inductive Outcome
  | semHit
  | exactHit
  | generated
  | degradedOk
  | failed
deriving DecidableEq, Repr

/-- The external collaborators of the orchestrator, as deterministic
oracles: the SHA-256 digest, the embedding similarity, the fast-mode
LLM call (a function of the query alone — its context search depends
only on the query), the full RAG chain call, the qa-id generator
(`_generate_qa_id`, timestamp+md5), and the source extraction
`_extract_sources_from_answer` (regex over the answer; Python's
`set()` ordering makes it a parameter). -/
structure Backend where
  hash : String → String
  sim : String → String → ℚ
  fastGen : String → Except GenFailure String
  ragGen : String → List Msg → Except GenFailure String
  genId : String → String
  sourcesOf : String → List String

/-- The shared mutable state of the engine: the exact-match cache, the
session histories, the QA knowledge base, the `last_qa_id:{session}`
rating pointers, and the `additional_documents_loaded` flag. -/
structure SysState where
  cache : List (String × CacheEntry)
  hist : List (String × List Msg)
  kb : List QAEntry
  lastQaId : List (String × String)
  addLoaded : Bool
deriving DecidableEq, Repr

/-- The observable history of a session: empty when never touched
(`get_session_history` creates an empty log on first access). -/
def histOf (s : SysState) (sid : String) : List Msg :=
  (lookupA s.hist sid).getD []

/-- The keyword list of `neuralex.is_simple_question`. -/
def simpleKeywords : List String :=
  ["что такое", "кто такой", "как называется", "определение",
   "сколько", "когда", "где", "какой срок", "какая статья"]

/-- `neuralex.is_simple_question`. -/
def isSimpleQuestion (query : String) : Bool :=
  simpleKeywords.any (fun kw => containsSub (lowerStr query).data kw.data)

/-- The generation step of `neuralex.conversational`: the fast mode
(direct LLM call) for simple questions with a short history, otherwise
the full RAG chain. -/
def genOf (B : Backend) (query : String) (messages : List Msg) :
    Except GenFailure String :=
  if isSimpleQuestion query && decide (messages.length < 4)
  then B.fastGen query
  else B.ragGen query messages

/-- The fixed apology of `EnhancedNeuralex.conversational`'s fallback
branch. -/
def fallbackAnswer : String :=
  "❌ Извините, произошла техническая ошибка при обработке вашего запроса.\n\n" ++
  "Возможные причины:\n" ++
  "• Проблемы с подключением к OpenAI API\n" ++
  "• Временные неполадки с векторной базой данных\n" ++
  "• Превышен лимит запросов\n\n" ++
  "Попробуйте задать вопрос еще раз через несколько минут."

/-- The result of one `neuralex.conversational` (base class) call:
the returned answer and history (or the propagated generation
failure), the updated state, the emitted events, and whether the
exact-match cache hit. -/
structure BaseResult where
  res : Except GenFailure (String × List Msg)
  state : SysState
  events : List Event
  hit : Bool
deriving Repr

/-- `neuralex.conversational`: exact-match cache lookup; on a hit
return the cached answer with the current history; on a miss generate
(fast or RAG mode), append the exchange to the session history, write
the answer through to the exact cache with no TTL, and return it.  A
generation failure propagates with no state change. -/
def baseConversational (B : Backend) (s : SysState) (query sid : String)
    (now : ℚ) : BaseResult :=
  match cacheGetOp s.cache (makeCacheKey B.hash query sid) now with
  | some cached => ⟨.ok (cached, histOf s sid), s, [.exactLookup true], true⟩
  | none =>
      match genOf B query (histOf s sid) with
      | .error e => ⟨.error e, s, [.exactLookup false, .genCall false], false⟩
      | .ok answer =>
          ⟨.ok (answer,
              histOf s sid ++ [⟨.user, query⟩, ⟨.assistant, answer⟩]),
            { s with
              hist := setA s.hist sid
                (histOf s sid ++ [⟨.user, query⟩, ⟨.assistant, answer⟩]),
              cache := cacheSetOp s.cache (makeCacheKey B.hash query sid)
                answer none now },
            [.exactLookup false, .genCall true], false⟩

/-- The result of one `EnhancedNeuralex.conversational` call. -/
structure RunResult where
  answer : String
  history : List Msg
  state : SysState
  events : List Event
  outcome : Outcome
deriving Repr

/-- `EnhancedNeuralex.conversational`: query the QA knowledge base
first (thresholds 0.85 / 4.0); on a hit append the exchange to the
session history and answer from the cache.  Otherwise run the base
call; on success save a QA pair with neutral initial rating 3.5 and
set the `last_qa_id` pointer (skipped for a falsy empty answer), and
return the answer.  On a base failure, when supplementary documents
are loaded, clear the flag and retry the identical base call once
(restoring the flag only after a successful retry); a failed retry, or
no loaded supplementary documents, returns the fixed apology with an
empty history. -/
def enhancedConversational (B : Backend) (s : SysState) (query sid : String)
    (now : ℚ) : RunResult :=
  match (find_similar_qa B.sim s.kb query 0.85 4 now).1 with
  | some qa =>
      ⟨qa.answer,
        histOf s sid ++ [⟨.user, query⟩, ⟨.assistant, qa.answer⟩],
        { s with
          kb := (find_similar_qa B.sim s.kb query 0.85 4 now).2,
          hist := setA s.hist sid
            (histOf s sid ++ [⟨.user, query⟩, ⟨.assistant, qa.answer⟩]) },
        [.semLookup true], .semHit⟩
  | none =>
      match (baseConversational B s query sid now).res with
      | .ok (answer, hist2) =>
          ⟨answer, hist2,
            (if answer = "" then (baseConversational B s query sid now).state
             else
              { (baseConversational B s query sid now).state with
                kb := (baseConversational B s query sid now).state.kb ++
                  [mkQAEntry (B.genId query) query answer (B.sourcesOf answer)
                    (some sid) 3.5 now],
                lastQaId := setA
                  (baseConversational B s query sid now).state.lastQaId sid
                  (B.genId query) }),
            .semLookup false :: (baseConversational B s query sid now).events,
            if (baseConversational B s query sid now).hit
            then .exactHit else .generated⟩
      | .error _ =>
          if s.addLoaded then
            match (baseConversational B
                { s with addLoaded := false } query sid now).res with
            | .ok (answer, hist2) =>
                ⟨answer, hist2,
                  { (baseConversational B
                      { s with addLoaded := false } query sid now).state with
                    addLoaded := true },
                  .semLookup false ::
                    (baseConversational B s query sid now).events ++
                    (baseConversational B
                      { s with addLoaded := false } query sid now).events,
                  .degradedOk⟩
            | .error _ =>
                ⟨fallbackAnswer, [],
                  (baseConversational B
                    { s with addLoaded := false } query sid now).state,
                  .semLookup false ::
                    (baseConversational B s query sid now).events ++
                    (baseConversational B
                      { s with addLoaded := false } query sid now).events,
                  .failed⟩
          else
            ⟨fallbackAnswer, [],
              (baseConversational B s query sid now).state,
              .semLookup false :: (baseConversational B s query sid now).events,
              .failed⟩

/-- The identity function as a stand-in digest (injective, so
collision-free, like the idealized SHA-256). -/
def hashId : String → String := fun s => s

/-- C2, counterexample: a backend whose generation always succeeds. -/
def bC2 : Backend :=
  ⟨hashId, fun _ _ => 0, fun _ => .ok "x", fun _ _ => .ok "x",
    fun _ => "id0", fun _ => []⟩

/-- C2, counterexample: the exact-cache key of query "q" in session
"s". -/
def keyC2 : String := makeCacheKey hashId "q" "s"

/-- C2, counterexample state: the exact cache already holds the
answer for ("s", "q"); the knowledge base is empty. -/
def sC2 : SysState := ⟨[(keyC2, ⟨"cached", none⟩)], [], [], [], true⟩

/-- C5/C6/C3, counterexample backend: generation always fails with an
API error — a cause unrelated to the supplementary corpus. -/
def bFail : Backend :=
  ⟨hashId, fun _ _ => 0, fun _ => .error .apiError,
    fun _ _ => .error .apiError, fun _ => "id0", fun _ => []⟩

/-- C5, counterexample state: empty stores, supplementary documents
loaded. -/
def sC5 : SysState := ⟨[], [], [], [], true⟩

/-- C6, witness state: empty stores, no supplementary documents. -/
def sC6 : SysState := ⟨[], [], [], [], false⟩

/-- C7, witness backend: generation succeeds with "x". -/
def bC7 : Backend :=
  ⟨hashId, fun _ _ => 0, fun _ => .ok "x", fun _ _ => .ok "x",
    fun _ => "id7", fun _ => []⟩

/-- C7, witness state: empty stores. -/
def sC7 : SysState := ⟨[], [], [], [], true⟩

section C1Lemmas

/-- After a successful id lookup, updating the store with an entry of
the same id makes the lookup return the new entry. -/
theorem getQAById_updateQAEntryInKB {kb : List QAEntry} {qaId : String}
    {e e2 : QAEntry} (hf : getQAById kb qaId = some e) (hid : e2.id = e.id) :
    getQAById (updateQAEntryInKB kb e2) qaId = some e2 := by
  unfold getQAById at hf ⊢
  unfold updateQAEntryInKB
  induction kb with
  | nil => simp at hf
  | cons a t ih =>
      by_cases ha : a.id = qaId
      · have hpos : (a.id == qaId) = true := by simpa using ha
        simp only [List.find?, hpos] at hf
        have hea : a = e := by cases hf; rfl
        have ha2 : a.id = e2.id := by rw [hid, ← hea]
        have hpos2 : (e2.id == qaId) = true := by simp [← ha2, ha]
        have hhead : (if (a.id == e2.id) = true then e2 else a) = e2 :=
          if_pos (by simpa using ha2)
        rw [List.map_cons, hhead]
        simp only [List.find?, hpos2]
      · have hneg : (a.id == qaId) = false := by simpa using ha
        simp only [List.find?, hneg] at hf
        have ha2 : ¬ (a.id = e2.id) := by
          rw [hid]
          intro hc
          have he' : e.id = qaId := by simpa using (List.find?_some hf)
          exact ha (by rw [hc, he'])
        have hhead : (if (a.id == e2.id) = true then e2 else a) = a :=
          if_neg (by simpa using ha2)
        rw [List.map_cons, hhead]
        simp only [List.find?, hneg]
        exact ih hf

/-- Folding the entry-level rating update keeps the running total:
the rating times the count equals the initial total plus the sum of
the applied scores, and the count advances by the number of scores. -/
theorem foldRating_invariant (rs : List ℤ) (e : QAEntry) :
    (rs.foldl updateRatingEntry e).rating_count = e.rating_count + rs.length ∧
    (rs.foldl updateRatingEntry e).rating *
        ((e.rating_count + rs.length : ℕ) : ℚ) =
      e.rating * (e.rating_count : ℚ) + ((rs.map (fun r : ℤ => (r : ℚ))).sum) := by
  induction rs generalizing e with
  | nil => simp
  | cons r rs ih =>
      have h := ih (updateRatingEntry e r)
      constructor
      · simpa [updateRatingEntry, Nat.add_assoc, Nat.add_comm 1 rs.length] using h.1
      · have hcount : (updateRatingEntry e r).rating_count = e.rating_count + 1 := rfl
        have hne : (((e.rating_count : ℚ) + 1)) ≠ 0 := by positivity
        have hrate : (updateRatingEntry e r).rating *
            (((e.rating_count + 1 : ℕ)) : ℚ) =
            e.rating * (e.rating_count : ℚ) + (r : ℚ) := by
          simp only [updateRatingEntry]
          push_cast
          field_simp
        have h2 := h.2
        rw [hcount] at h2
        have : ((e.rating_count + 1 + rs.length : ℕ) : ℚ) =
            ((e.rating_count + (rs.length + 1) : ℕ) : ℚ) := by push_cast; ring
        rw [this] at h2
        simp only [List.foldl_cons, List.map_cons, List.sum_cons, List.length_cons]
        rw [h2]
        have hrate2 : (updateRatingEntry e r).rating = (e.rating * (e.rating_count : ℚ) + (r : ℚ)) / ((e.rating_count : ℚ) + 1) := by
          simp only [updateRatingEntry]
          push_cast
          ring_nf
        rw [hrate2]
        field_simp
        ring

/-- A successful lookup makes every `update_rating` in a sequence
succeed, and the stored entry is the fold of the entry-level update. -/
theorem rateAll_spec {kb : List QAEntry} {qaId : String} {e : QAEntry}
    (hget : getQAById kb qaId = some e) (rs : List ℤ) :
    (rateAll kb qaId rs).1 = true ∧
      getQAById (rateAll kb qaId rs).2 qaId =
        some (rs.foldl updateRatingEntry e) := by
  induction rs generalizing kb e with
  | nil => exact ⟨rfl, by simpa using hget⟩
  | cons r rs ih =>
      have hstep : update_rating kb qaId r =
          (true, updateQAEntryInKB kb (updateRatingEntry e r)) := by
        simp [update_rating, hget]
      have hget2 : getQAById (updateQAEntryInKB kb (updateRatingEntry e r)) qaId =
          some (updateRatingEntry e r) :=
        getQAById_updateQAEntryInKB hget rfl
      have h2 := ih hget2
      constructor
      · simp [rateAll, hstep, h2.1]
      · simpa [rateAll, hstep] using h2.2

end C1Lemmas

/-- C1 (counterexample): a fresh entry saved with initial rating 3 and
rating_count 0, after one successful `update_rating` with score 5, has
rating 5 — not the arithmetic mean (3+5)/2 = 4 of the initial value and
the score.  `save_qa_pair` sets `rating_count = 0`, so the first update
computes `(3*0+5)/1 = 5`, discarding the initial rating. -/
theorem c1_counterexample :
    (rateAll kbC1 "q1" [5]).1 = true ∧
    ((getQAById (rateAll kbC1 "q1" [5]).2 "q1").map QAEntry.rating) = some 5 ∧
    ¬ (((getQAById (rateAll kbC1 "q1" [5]).2 "q1").map QAEntry.rating) =
        some ((3 + 5) / 2 : ℚ)) := by
  have h : getQAById kbC1 "q1" = some eC1 := by
    simp [kbC1, eC1, getQAById, mkQAEntry]
  have hs := rateAll_spec h [5]
  refine ⟨hs.1, ?_, ?_⟩
  · rw [hs.2]
    simp [eC1, mkQAEntry, updateRatingEntry]
  · rw [hs.2]
    simp only [eC1, mkQAEntry, updateRatingEntry, List.foldl_cons, List.foldl_nil,
      Option.map_some]
    norm_num

/-- C1 (amended): starting from a stored entry with `rating_count = 0`
and initial rating r0, a sequence of k successful `update_rating` calls
with scores r1..rk leaves `rating_count = k` and `rating` equal to the
arithmetic mean of r1..rk alone — the synthetic initial rating r0 is
discarded by the first update because the running total is weighted by
`rating_count = 0`.  (For k = 0 the entry is unchanged.) -/
theorem c1_amended (kb : List QAEntry) (qaId : String) (e : QAEntry) (rs : List ℤ)
    (hget : getQAById kb qaId = some e) (h0 : e.rating_count = 0) :
    (rateAll kb qaId rs).1 = true ∧
    ∃ e2, getQAById (rateAll kb qaId rs).2 qaId = some e2 ∧
      e2.rating_count = rs.length ∧
      (rs ≠ [] →
        e2.rating = ((rs.map (fun r : ℤ => (r : ℚ))).sum) / (rs.length : ℚ)) ∧
      (rs = [] → e2 = e) := by
  have hs := rateAll_spec hget rs
  refine ⟨hs.1, rs.foldl updateRatingEntry e, hs.2, ?_, ?_, ?_⟩
  · have := (foldRating_invariant rs e).1
    rw [h0] at this
    simpa using this
  · intro hne
    have hinv := (foldRating_invariant rs e).2
    rw [h0] at hinv
    have hlen : (rs.length : ℚ) ≠ 0 := by
      have : rs.length ≠ 0 := by simpa using hne
      exact_mod_cast this
    have hinv2 : (rs.foldl updateRatingEntry e).rating * (rs.length : ℚ) =
        ((rs.map (fun r : ℤ => (r : ℚ))).sum) := by
      simpa using hinv
    field_simp
    linarith [hinv2]
  · intro hnil
    subst hnil
    rfl

section SearchLemmas

/-- Membership in an insertion step comes from the inserted element or
the original list. -/
theorem mem_insertByDesc {α : Type} {f : α → ℚ} {x a : α} {l : List α}
    (h : a ∈ insertByDesc f x l) : a = x ∨ a ∈ l := by
  induction l with
  | nil => simpa [insertByDesc] using h
  | cons y ys ih =>
      by_cases hc : f y < f x
      · simp only [insertByDesc, if_pos hc, List.mem_cons] at h
        rcases h with h | h | h
        · exact Or.inl h
        · exact Or.inr (by simp [h])
        · exact Or.inr (by simp [h])
      · simp only [insertByDesc, if_neg hc, List.mem_cons] at h
        rcases h with h | h
        · exact Or.inr (by simp [h])
        · rcases ih h with h' | h'
          · exact Or.inl h'
          · exact Or.inr (by simp [h'])

/-- The sort only permutes: membership is preserved. -/
theorem mem_sortByDesc {α : Type} {f : α → ℚ} {a : α} {l : List α}
    (h : a ∈ sortByDesc f l) : a ∈ l := by
  induction l with
  | nil => simp [sortByDesc] at h
  | cons y ys ih =>
      rcases @mem_insertByDesc _ f y a (sortByDesc f ys) (by simpa [sortByDesc] using h) with h' | h'
      · simp [h']
      · exact List.mem_cons_of_mem _ (ih h')

/-- Every element of a similarity-search result is a stored entry,
carries its own modelled similarity, and reaches the threshold. -/
theorem mem_similaritySearch {sim : String → String → ℚ} {kb : List QAEntry}
    {question : String} {k : ℕ} {thr : ℚ} {p : QAEntry × ℚ}
    (h : p ∈ similaritySearch sim kb question k thr) :
    p.1 ∈ kb ∧ p.2 = sim question p.1.question ∧ thr ≤ p.2 := by
  have h1 : p ∈ sortByDesc (fun p : QAEntry × ℚ => p.2)
      ((kb.map (fun e => (e, sim question e.question))).filter
        (fun p => decide (thr ≤ p.2))) := List.take_subset _ _ h
  have h2 := mem_sortByDesc h1
  have h3 := List.mem_filter.mp h2
  rcases List.mem_map.mp h3.1 with ⟨x, hx, hpx⟩
  refine ⟨?_, ?_, ?_⟩
  · rw [← hpx]; exact hx
  · rw [← hpx]
  · exact of_decide_eq_true h3.2

end SearchLemmas

/-- C4 (confirmed): `find_similar_qa` returns an entry only if that
entry is stored, its modelled similarity to the question reaches
`similarity_threshold` and its rating reaches `min_rating` — over every
store state, hence in particular immediately after an `update_rating`
call has pushed an entry's rating below `min_rating`; when no stored
entry satisfies both conditions it returns no hit. -/
theorem c4_theorem :
    (∀ (sim : String → String → ℚ) (kb : List QAEntry) (q : String)
        (thr mr now : ℚ) (e : QAEntry) (kb2 : List QAEntry),
      find_similar_qa sim kb q thr mr now = (some e, kb2) →
        e ∈ kb ∧ thr ≤ sim q e.question ∧ mr ≤ e.rating) ∧
    (∀ (sim : String → String → ℚ) (kb : List QAEntry) (q : String)
        (thr mr now : ℚ),
      (∀ x ∈ kb, ¬ (thr ≤ sim q x.question ∧ mr ≤ x.rating)) →
        (find_similar_qa sim kb q thr mr now).1 = none) := by
  constructor
  · intro sim kb q thr mr now e kb2 h
    unfold find_similar_qa at h
    rcases hf : (similaritySearch sim kb q 5 thr).find?
        (fun p => decide (mr ≤ p.1.rating)) with _ | p
    · rw [hf] at h; simp at h
    · rw [hf] at h
      have hpe : p.1 = e := by cases h; rfl
      have hmem := mem_similaritySearch (List.mem_of_find?_eq_some hf)
      have hratb := List.find?_some hf
      have hrat : mr ≤ p.1.rating := of_decide_eq_true (by simpa using hratb)
      rw [hpe] at hmem hrat
      exact ⟨hmem.1, hmem.2.1 ▸ hmem.2.2, hrat⟩
  · intro sim kb q thr mr now hall
    unfold find_similar_qa
    have hnone : (similaritySearch sim kb q 5 thr).find?
        (fun p => decide (mr ≤ p.1.rating)) = none := by
      rw [List.find?_eq_none]
      intro p hp
      have hmem := mem_similaritySearch hp
      have := hall p.1 hmem.1
      simp only [decide_eq_true_eq]
      intro hr
      exact this ⟨hmem.2.1 ▸ hmem.2.2, hr⟩
    rw [hnone]

/-- C4 witness: with one stored entry of rating 3 < 4 nothing
qualifies, so the search reports no hit. -/
theorem c4_witness :
    (∀ x ∈ kbC4, ¬ ((0.85 : ℚ) ≤ (fun _ _ => (1 : ℚ)) "впр" x.question ∧
      (4 : ℚ) ≤ x.rating)) ∧
    (find_similar_qa (fun _ _ => (1 : ℚ)) kbC4 "впр" 0.85 4 9).1 = none := by
  have hall : ∀ x ∈ kbC4, ¬ ((0.85 : ℚ) ≤ (fun _ _ => (1 : ℚ)) "впр" x.question ∧
      (4 : ℚ) ≤ x.rating) := by
    intro x hx
    simp only [kbC4, mkQAEntry, List.mem_singleton] at hx
    subst hx
    intro hc
    norm_num at hc
  exact ⟨hall, c4_theorem.2 (fun _ _ => (1 : ℚ)) kbC4 "впр" 0.85 4 9 hall⟩

/-- C1 witness: two ratings 5 then 1 on a fresh entry leave count 2 and
the mean of the applied scores. -/
theorem c1_witness :
    (rateAll kbC1w "q2" [5, 1]).1 = true ∧
    ∃ e2, getQAById (rateAll kbC1w "q2" [5, 1]).2 "q2" = some e2 ∧
      e2.rating_count = ([5, 1] : List ℤ).length ∧
      (([5, 1] : List ℤ) ≠ [] →
        e2.rating = ((([5, 1] : List ℤ).map (fun r : ℤ => (r : ℚ))).sum) /
          ((([5, 1] : List ℤ).length : ℚ))) ∧
      (([5, 1] : List ℤ) = [] → e2 = eC1w) :=
  c1_amended kbC1w "q2" eC1w [5, 1]
    (by simp [kbC1w, eC1w, getQAById, mkQAEntry])
    (by simp [eC1w, mkQAEntry])

/-- A hit of `find_similar_qa` updates the store exactly by the usage
bump of the returned entry's id. -/
theorem find_similar_qa_hit_state {sim : String → String → ℚ}
    {kb : List QAEntry} {q : String} {thr mr now : ℚ} {e : QAEntry}
    {kb2 : List QAEntry}
    (h : find_similar_qa sim kb q thr mr now = (some e, kb2)) :
    kb2 = updateUsageStats kb e.id now := by
  unfold find_similar_qa at h
  rcases hf : (similaritySearch sim kb q 5 thr).find?
      (fun p => decide (mr ≤ p.1.rating)) with _ | p
  · rw [hf] at h; simp at h
  · rw [hf] at h
    cases h
    rfl

/-- C10 (confirmed): an entry built by `save_qa_pair` starts with
`usage_count = 1`, `rating_count = 0`, `last_used = created_at` and
`session_ids` the one-element list of the creating session (empty when
none is given); and a `find_similar_qa` hit on an entry bumps the
stored `usage_count` by one — so the first hit on a fresh entry leaves
it at 2. -/
theorem c10_theorem :
    (∀ (qaId q a : String) (srcs : List String) (sid : String) (r0 now : ℚ),
      (mkQAEntry qaId q a srcs (some sid) r0 now).usage_count = 1 ∧
      (mkQAEntry qaId q a srcs (some sid) r0 now).rating_count = 0 ∧
      (mkQAEntry qaId q a srcs (some sid) r0 now).last_used =
        (mkQAEntry qaId q a srcs (some sid) r0 now).created_at ∧
      (mkQAEntry qaId q a srcs (some sid) r0 now).session_ids = [sid]) ∧
    (∀ (qaId q a : String) (srcs : List String) (r0 now : ℚ),
      (mkQAEntry qaId q a srcs none r0 now).session_ids = []) ∧
    (∀ (sim : String → String → ℚ) (kb : List QAEntry) (q : String)
        (thr mr now : ℚ) (e : QAEntry) (kb2 : List QAEntry),
      find_similar_qa sim kb q thr mr now = (some e, kb2) →
      getQAById kb e.id = some e →
      getQAById kb2 e.id =
        some { e with usage_count := e.usage_count + 1, last_used := now } ∧
      (e.usage_count = 1 →
        (getQAById kb2 e.id).map QAEntry.usage_count = some 2)) := by
  refine ⟨fun _ _ _ _ _ _ _ => ⟨rfl, rfl, rfl, rfl⟩,
    fun _ _ _ _ _ _ => rfl, ?_⟩
  intro sim kb q thr mr now e kb2 hfind hget
  have hstate := find_similar_qa_hit_state hfind
  have hupd : getQAById kb2 e.id =
      some { e with usage_count := e.usage_count + 1, last_used := now } := by
    rw [hstate]
    unfold updateUsageStats
    rw [hget]
    exact getQAById_updateQAEntryInKB hget rfl
  refine ⟨hupd, fun h1 => ?_⟩
  rw [hupd]
  simp [h1]

/-- C10 witness: the first hit on the fresh entry stores usage 2. -/
theorem c10_witness :
    (find_similar_qa simC10 kbC10 "впр" 0.85 4 9 =
      (some eC10, (find_similar_qa simC10 kbC10 "впр" 0.85 4 9).2)) ∧
    getQAById (find_similar_qa simC10 kbC10 "впр" 0.85 4 9).2 eC10.id =
      some { eC10 with usage_count := eC10.usage_count + 1, last_used := 9 } ∧
    (eC10.usage_count = 1 →
      (getQAById (find_similar_qa simC10 kbC10 "впр" 0.85 4 9).2 eC10.id).map
        QAEntry.usage_count = some 2) := by
  have h1 : (find_similar_qa simC10 kbC10 "впр" 0.85 4 9).1 = some eC10 := by
    unfold find_similar_qa similaritySearch
    simp only [kbC10, simC10, List.map_cons, List.map_nil]
    rw [List.filter_cons]
    norm_num
    rw [show sortByDesc (fun p : QAEntry × ℚ => p.2) [(eC10, (1 : ℚ))] =
      [(eC10, (1 : ℚ))] from rfl]
    rw [show List.take 5 [(eC10, (1 : ℚ))] = [(eC10, (1 : ℚ))] from rfl]
    rw [List.find?_cons]
    norm_num [eC10, mkQAEntry]
  have hpair : find_similar_qa simC10 kbC10 "впр" 0.85 4 9 =
      (some eC10, (find_similar_qa simC10 kbC10 "впр" 0.85 4 9).2) := by
    rw [← h1]
  have hget : getQAById kbC10 eC10.id = some eC10 := by
    simp [kbC10, getQAById]
  have h := c10_theorem.2.2 simC10 kbC10 "впр" 0.85 4 9 eC10
    (find_similar_qa simC10 kbC10 "впр" 0.85 4 9).2 hpair hget
  exact ⟨hpair, h.1, h.2⟩

section RateLimiterLemmas

theorem sortedAsc_tail {a : ℚ} {t : List ℚ} (h : sortedAsc (a :: t) = true) :
    sortedAsc t = true := by
  cases t with
  | nil => rfl
  | cons b t' =>
      simp only [sortedAsc, Bool.and_eq_true] at h
      exact h.2

theorem sortedAsc_head_le {a x : ℚ} {t : List ℚ}
    (h : sortedAsc (a :: t) = true) (hx : x ∈ t) : a ≤ x := by
  induction t generalizing a with
  | nil => simp at hx
  | cons b t' ih =>
      simp only [sortedAsc, Bool.and_eq_true, decide_eq_true_eq] at h
      rcases List.mem_cons.mp hx with hx' | hx'
      · exact hx' ▸ h.1
      · exact le_trans h.1 (ih h.2 hx')

/-- On an ascending queue the front-trimming loop removes exactly the
timestamps older than the window. -/
theorem rateLimiterTrim_eq_filter {window now : ℚ} {queue : List ℚ}
    (h : sortedAsc queue = true) :
    rateLimiterTrim window now queue =
      queue.filter (fun t => decide (now - t ≤ window)) := by
  induction queue with
  | nil => rfl
  | cons a t ih =>
      by_cases hc : window < now - a
      · have h1 : rateLimiterTrim window now (a :: t) =
            rateLimiterTrim window now t := by
          simp [rateLimiterTrim, List.dropWhile, hc]
        have h2 : (a :: t).filter (fun t => decide (now - t ≤ window)) =
            t.filter (fun t => decide (now - t ≤ window)) := by
          rw [List.filter_cons]
          simp [not_le.mpr hc]
        rw [h1, h2]
        exact ih (sortedAsc_tail h)
      · have hle : now - a ≤ window := not_lt.mp hc
        have h1 : rateLimiterTrim window now (a :: t) = a :: t := by
          simp [rateLimiterTrim, List.dropWhile, hc]
        have h2 : (a :: t).filter (fun t => decide (now - t ≤ window)) =
            a :: t := by
          rw [List.filter_eq_self]
          intro x hx
          rcases List.mem_cons.mp hx with hx' | hx'
          · subst hx'; simpa using hle
          · have hax : a ≤ x := sortedAsc_head_le h hx'
            have : now - x ≤ window := le_trans (by linarith) hle
            simpa using this
        rw [h1, h2]

end RateLimiterLemmas

/-- C9 (confirmed): the deployed limiter uses N=15, W=60s; on an
ascending queue, `is_allowed` admits iff fewer than `max_requests` of
the recorded timestamps fall within the trailing window, and it
records the current time exactly when it admits; and with N=3, W=10s
on a synthetic clock, three calls within 10s are admitted, a fourth
within the window is denied, and a call after the window has passed is
admitted again. -/
theorem c9_theorem :
    (globalRateLimiterMaxRequests = 15 ∧ globalRateLimiterWindow = 60) ∧
    (∀ (n : ℕ) (w : ℚ) (queue : List ℚ) (now : ℚ),
      sortedAsc queue = true →
      (((isAllowed n w queue now).1 = true) ↔
        (queue.filter (fun t => decide (now - t ≤ w))).length < n) ∧
      ((isAllowed n w queue now).2 =
        if (isAllowed n w queue now).1 = true
        then rateLimiterTrim w now queue ++ [now]
        else rateLimiterTrim w now queue)) ∧
    runLimiter 3 10 [] [0, 1, 2, 3, 11] = [true, true, true, false, true] := by
  refine ⟨⟨rfl, rfl⟩, ?_, ?_⟩
  · intro n w queue now hsort
    have htrim := @rateLimiterTrim_eq_filter w now queue hsort
    constructor
    · unfold isAllowed
      by_cases hc : n ≤ (rateLimiterTrim w now queue).length
      · simp only [if_pos hc]
        rw [htrim] at hc
        constructor
        · intro h; exact absurd h (by simp)
        · intro h; omega
      · simp only [if_neg hc]
        rw [htrim] at hc
        simp only [true_iff]
        omega
    · unfold isAllowed
      by_cases hc : n ≤ (rateLimiterTrim w now queue).length
      · simp [if_pos hc]
      · simp [if_neg hc]
  · show runLimiter 3 10 [] [0, 1, 2, 3, 11] = [true, true, true, false, true]
    norm_num [runLimiter, isAllowed, rateLimiterTrim, List.dropWhile]

/-- C9 witness: the general characterization applied to the concrete
queue [0, 1, 2] at time 3 with N=3, W=10: the call is denied and the
queue is left trimmed without the new timestamp. -/
theorem c9_witness :
    sortedAsc [(0 : ℚ), 1, 2] = true ∧
    ((((isAllowed 3 10 [(0 : ℚ), 1, 2] 3).1 = true) ↔
      (([(0 : ℚ), 1, 2]).filter (fun t => decide ((3 : ℚ) - t ≤ 10))).length < 3) ∧
    ((isAllowed 3 10 [(0 : ℚ), 1, 2] 3).2 =
      if (isAllowed 3 10 [(0 : ℚ), 1, 2] 3).1 = true
      then rateLimiterTrim 10 3 [(0 : ℚ), 1, 2] ++ [3]
      else rateLimiterTrim 10 3 [(0 : ℚ), 1, 2])) := by
  have hsort : sortedAsc [(0 : ℚ), 1, 2] = true := by
    norm_num [sortedAsc]
  exact ⟨hsort, c9_theorem.2.1 3 10 [(0 : ℚ), 1, 2] 3 hsort⟩

section AssocLemmas

/-- Looking up the key just set returns the value just stored. -/
theorem lookupA_setA_self {α : Type} (l : List (String × α)) (k : String)
    (v : α) : lookupA (setA l k v) k = some v := by
  induction l with
  | nil => simp [setA, lookupA]
  | cons p t ih =>
      rcases p with ⟨k', v'⟩
      by_cases hc : k' = k
      · simp [setA, hc, lookupA]
      · have hb : (k' == k) = false := by simpa using hc
        simp only [setA, hb, Bool.false_eq_true, if_false]
        simpa [lookupA, List.find?, hb] using ih

end AssocLemmas

section RunLemmas

/-- Evaluation of the base call on an exact-cache hit. -/
theorem base_cacheHit {B : Backend} {s : SysState} {query sid : String}
    {now : ℚ} {v : String}
    (hc : cacheGetOp s.cache (makeCacheKey B.hash query sid) now = some v) :
    baseConversational B s query sid now =
      ⟨.ok (v, histOf s sid), s, [.exactLookup true], true⟩ := by
  unfold baseConversational
  rw [hc]

/-- Evaluation of the base call on a cache miss with successful
generation. -/
theorem base_missGenOk {B : Backend} {s : SysState} {query sid : String}
    {now : ℚ} {answer : String}
    (hc : cacheGetOp s.cache (makeCacheKey B.hash query sid) now = none)
    (hg : genOf B query (histOf s sid) = .ok answer) :
    baseConversational B s query sid now =
      ⟨.ok (answer, histOf s sid ++ [⟨.user, query⟩, ⟨.assistant, answer⟩]),
        { s with
          hist := setA s.hist sid
            (histOf s sid ++ [⟨.user, query⟩, ⟨.assistant, answer⟩]),
          cache := cacheSetOp s.cache (makeCacheKey B.hash query sid)
            answer none now },
        [.exactLookup false, .genCall true], false⟩ := by
  unfold baseConversational
  rw [hc, hg]

/-- Evaluation of the base call on a cache miss with failed
generation: the failure propagates and the state is untouched. -/
theorem base_missGenErr {B : Backend} {s : SysState} {query sid : String}
    {now : ℚ} {e : GenFailure}
    (hc : cacheGetOp s.cache (makeCacheKey B.hash query sid) now = none)
    (hg : genOf B query (histOf s sid) = .error e) :
    baseConversational B s query sid now =
      ⟨.error e, s, [.exactLookup false, .genCall false], false⟩ := by
  unfold baseConversational
  rw [hc, hg]

/-- Inversion: a failing base call came from the miss/generation-error
branch, so its state is the input state. -/
theorem base_err_inv {B : Backend} {s : SysState} {query sid : String}
    {now : ℚ} {e : GenFailure}
    (h : (baseConversational B s query sid now).res = .error e) :
    baseConversational B s query sid now =
      ⟨.error e, s, [.exactLookup false, .genCall false], false⟩ := by
  rcases hc : cacheGetOp s.cache (makeCacheKey B.hash query sid) now with _ | v
  · rcases hg : genOf B query (histOf s sid) with e' | a
    · have hb := base_missGenErr hc hg
      rw [hb] at h
      simp only at h
      cases h
      exact hb
    · rw [base_missGenOk hc hg] at h
      simp at h
  · rw [base_cacheHit hc] at h
    simp at h

/-- Evaluation of the orchestrator on a semantic-cache hit. -/
theorem enhanced_semHit {B : Backend} {s : SysState} {query sid : String}
    {now : ℚ} {qa : QAEntry}
    (hf : (find_similar_qa B.sim s.kb query 0.85 4 now).1 = some qa) :
    enhancedConversational B s query sid now =
      ⟨qa.answer,
        histOf s sid ++ [⟨.user, query⟩, ⟨.assistant, qa.answer⟩],
        { s with
          kb := (find_similar_qa B.sim s.kb query 0.85 4 now).2,
          hist := setA s.hist sid
            (histOf s sid ++ [⟨.user, query⟩, ⟨.assistant, qa.answer⟩]) },
        [.semLookup true], .semHit⟩ := by
  unfold enhancedConversational
  rw [hf]

/-- Evaluation of the orchestrator on a semantic miss with a
successful base call (exact hit or fresh generation). -/
theorem enhanced_missOk {B : Backend} {s : SysState} {query sid : String}
    {now : ℚ} {answer : String} {hist2 : List Msg}
    (hf : (find_similar_qa B.sim s.kb query 0.85 4 now).1 = none)
    (hres : (baseConversational B s query sid now).res = .ok (answer, hist2)) :
    enhancedConversational B s query sid now =
      ⟨answer, hist2,
        (if answer = "" then (baseConversational B s query sid now).state
         else
          { (baseConversational B s query sid now).state with
            kb := (baseConversational B s query sid now).state.kb ++
              [mkQAEntry (B.genId query) query answer (B.sourcesOf answer)
                (some sid) 3.5 now],
            lastQaId := setA
              (baseConversational B s query sid now).state.lastQaId sid
              (B.genId query) }),
        .semLookup false :: (baseConversational B s query sid now).events,
        if (baseConversational B s query sid now).hit
        then .exactHit else .generated⟩ := by
  unfold enhancedConversational
  rw [hf, hres]

/-- Evaluation of the orchestrator on a semantic miss, base failure,
supplementary documents not loaded: immediate FAIL. -/
theorem enhanced_errNoFlag {B : Backend} {s : SysState} {query sid : String}
    {now : ℚ} {e : GenFailure}
    (hf : (find_similar_qa B.sim s.kb query 0.85 4 now).1 = none)
    (hres : (baseConversational B s query sid now).res = .error e)
    (hflag : s.addLoaded = false) :
    enhancedConversational B s query sid now =
      ⟨fallbackAnswer, [], (baseConversational B s query sid now).state,
        .semLookup false :: (baseConversational B s query sid now).events,
        .failed⟩ := by
  unfold enhancedConversational
  rw [hf, hres, hflag]
  simp

/-- Evaluation of the orchestrator on a semantic miss, base failure,
with the supplementary-documents flag set and a successful retry. -/
theorem enhanced_errFlagRetryOk {B : Backend} {s : SysState}
    {query sid : String} {now : ℚ} {e : GenFailure} {a2 : String}
    {h3 : List Msg}
    (hf : (find_similar_qa B.sim s.kb query 0.85 4 now).1 = none)
    (hres : (baseConversational B s query sid now).res = .error e)
    (hflag : s.addLoaded = true)
    (hretry : (baseConversational B
        { s with addLoaded := false }
        query sid now).res = .ok (a2, h3)) :
    enhancedConversational B s query sid now =
      ⟨a2, h3,
        { (baseConversational B
            { s with addLoaded := false } query sid now).state with
          addLoaded := true },
        .semLookup false :: (baseConversational B s query sid now).events ++
          (baseConversational B
            { s with addLoaded := false } query sid now).events,
        .degradedOk⟩ := by
  unfold enhancedConversational
  rw [hf, hres, hflag]
  simp only [if_true]
  rw [hretry]

/-- Evaluation of the orchestrator on a semantic miss, base failure,
with the supplementary-documents flag set and a failing retry. -/
theorem enhanced_errFlagRetryErr {B : Backend} {s : SysState}
    {query sid : String} {now : ℚ} {e e2 : GenFailure}
    (hf : (find_similar_qa B.sim s.kb query 0.85 4 now).1 = none)
    (hres : (baseConversational B s query sid now).res = .error e)
    (hflag : s.addLoaded = true)
    (hretry : (baseConversational B
        { s with addLoaded := false }
        query sid now).res = .error e2) :
    enhancedConversational B s query sid now =
      ⟨fallbackAnswer, [],
        (baseConversational B
          { s with addLoaded := false } query sid now).state,
        .semLookup false :: (baseConversational B s query sid now).events ++
          (baseConversational B
            { s with addLoaded := false } query sid now).events,
        .failed⟩ := by
  unfold enhancedConversational
  rw [hf, hres, hflag]
  simp only [if_true]
  rw [hretry]

end RunLemmas

/-- C7 (counterexample): `set` with no TTL stores the value with no
expiry at all — there is no default TTL: for every candidate default
duration d, storing without a TTL differs from storing with TTL d. -/
theorem c7_counterexample :
    lookupA (cacheSetOp [] "k" "v" none 0) "k" = some ⟨"v", none⟩ ∧
    ¬ ∃ d : ℚ, cacheSetOp [] "k" "v" none 0 = cacheSetOp [] "k" "v" (some d) 0 := by
  constructor
  · simp [cacheSetOp, setA, lookupA]
  · rintro ⟨d, h⟩
    simp [cacheSetOp, setA] at h

/-- C7 (amended): the successful-generation write-through stores the
answer in the exact-match cache with `ttl = None`, hence with no
expiry: the entry remains retrievable at every later time and never
expires (memory growth is not TTL-bounded). -/
theorem c7_amended (B : Backend) (s : SysState) (query sid : String)
    (now : ℚ) (a : String)
    (hc : cacheGetOp s.cache (makeCacheKey B.hash query sid) now = none)
    (hg : genOf B query (histOf s sid) = .ok a) :
    lookupA (baseConversational B s query sid now).state.cache
      (makeCacheKey B.hash query sid) = some ⟨a, none⟩ ∧
    (a ≠ "" → ∀ t : ℚ,
      cacheGetOp (baseConversational B s query sid now).state.cache
        (makeCacheKey B.hash query sid) t = some a) := by
  rw [base_missGenOk hc hg]
  have hl : lookupA (cacheSetOp s.cache (makeCacheKey B.hash query sid) a none now)
      (makeCacheKey B.hash query sid) = some ⟨a, none⟩ := by
    unfold cacheSetOp
    exact lookupA_setA_self s.cache (makeCacheKey B.hash query sid) ⟨a, none⟩
  refine ⟨hl, fun hne t => ?_⟩
  unfold cacheGetOp
  rw [hl]
  simp [hne]

/-- C7 witness: a concrete miss-and-generate run stores "x" with no
expiry, readable at any later time. -/
theorem c7_witness :
    lookupA (baseConversational bC7 sC7 "q" "s" 0).state.cache
      (makeCacheKey bC7.hash "q" "s") = some ⟨"x", none⟩ ∧
    (("x" : String) ≠ "" → ∀ t : ℚ,
      cacheGetOp (baseConversational bC7 sC7 "q" "s" 0).state.cache
        (makeCacheKey bC7.hash "q" "s") t = some "x") :=
  c7_amended bC7 sC7 "q" "s" 0 "x" (by simp [sC7, cacheGetOp, lookupA])
    (by simp [genOf, bC7, isSimpleQuestion, simpleKeywords, containsSub, lowerStr, lowerChar])

/-- The prefix of a replicate-append. -/
theorem take_replicate_append (n : ℕ) (c : Char) (l : List Char) :
    (List.replicate n c ++ l).take n = List.replicate n c := by
  have h := List.take_left (List.replicate n c) l
  rw [List.length_replicate] at h
  exact h

/-- Cancellation of a common prefix of strings. -/
theorem string_append_cancel {s t u : String} (h : s ++ t = s ++ u) :
    t = u := by
  have hd := congrArg String.data h
  simp only [String.data_append] at hd
  have hdu := List.append_cancel_left hd
  exact String.ext hdu

/-- C8 (counterexample): the hashed material of `make_cache_key` is
the full query, not a length-bounded prefix: there is no bound L such
that queries agreeing on their first L characters always produce the
same raw key. -/
theorem c8_counterexample :
    ¬ ∃ L : ℕ, ∀ (sid q1 q2 : String),
      q1.data.take L = q2.data.take L → keyRaw q1 sid = keyRaw q2 sid := by
  rintro ⟨L, hL⟩
  have htake : (⟨List.replicate L 'a' ++ ['x']⟩ : String).data.take L =
      (⟨List.replicate L 'a' ++ ['y']⟩ : String).data.take L := by
    show (List.replicate L 'a' ++ ['x']).take L =
      (List.replicate L 'a' ++ ['y']).take L
    rw [take_replicate_append, take_replicate_append]
  have h := hL "s" ⟨List.replicate L 'a' ++ ['x']⟩ ⟨List.replicate L 'a' ++ ['y']⟩ htake
  unfold keyRaw at h
  have h2 := string_append_cancel h
  have hd := congrArg String.data h2
  simp only at hd
  have := List.append_cancel_left hd
  simp at this

/-- C8 (amended): `make_cache_key` is deterministic and depends on the
full query: with a collision-free (injective) digest, two queries of
the same session produce the same key exactly when they are equal —
there is no length bound and no intentional prefix collision. -/
theorem c8_amended (h : String → String) (sid q1 q2 : String)
    (hinj : Function.Injective h) :
    makeCacheKey h q1 sid = makeCacheKey h q2 sid ↔ q1 = q2 := by
  constructor
  · intro he
    unfold makeCacheKey at he
    have h1 := hinj (string_append_cancel he)
    unfold keyRaw at h1
    exact string_append_cancel h1
  · intro he
    rw [he]

/-- C8 witness: the amended key characterization at the identity
digest and concrete queries. -/
theorem c8_witness :
    Function.Injective hashId ∧
    (makeCacheKey hashId "a" "s" = makeCacheKey hashId "b" "s" ↔
      ("a" : String) = "b") :=
  ⟨fun _ _ hh => hh, c8_amended hashId "s" "a" "b" (fun _ _ hh => hh)⟩

/-- C2 (counterexample): with the exact-match cache already holding
the answer for ("s", "q"), the orchestrator still queries the semantic
knowledge cache first — the run's events are semantic lookup, then
exact lookup — so the semantic lookup is not gated on an exact miss. -/
theorem c2_counterexample :
    cacheGetOp sC2.cache (makeCacheKey bC2.hash "q" "s") 0 = some "cached" ∧
    (enhancedConversational bC2 sC2 "q" "s" 0).events =
      [Event.semLookup false, Event.exactLookup true] ∧
    (enhancedConversational bC2 sC2 "q" "s" 0).answer = "cached" := by
  have hf : (find_similar_qa bC2.sim sC2.kb "q" 0.85 4 0).1 = none := rfl
  have hget : cacheGetOp sC2.cache (makeCacheKey bC2.hash "q" "s") 0 =
      some "cached" := by
    simp [sC2, keyC2, bC2, cacheGetOp, lookupA]
  have hbase := base_cacheHit hget
  have hres : (baseConversational bC2 sC2 "q" "s" 0).res =
      .ok ("cached", histOf sC2 "s") := by rw [hbase]
  have henh := enhanced_missOk hf hres
  refine ⟨hget, ?_, ?_⟩
  · rw [henh, hbase]
  · rw [henh]

/-- C2 (amended): the semantic knowledge cache is queried first in
every orchestrate run; the exact-match lookup is reached only on a
semantic miss; and on a semantic miss an exact-cache hit returns the
cached answer without invoking the generation backend. -/
theorem c2_amended (B : Backend) (s : SysState) (query sid : String) (now : ℚ) :
    ((enhancedConversational B s query sid now).events.head? =
      some (Event.semLookup
        ((find_similar_qa B.sim s.kb query 0.85 4 now).1.isSome))) ∧
    ((∃ b, Event.exactLookup b ∈ (enhancedConversational B s query sid now).events) →
      (find_similar_qa B.sim s.kb query 0.85 4 now).1 = none) ∧
    (∀ v, (find_similar_qa B.sim s.kb query 0.85 4 now).1 = none →
      cacheGetOp s.cache (makeCacheKey B.hash query sid) now = some v →
      (enhancedConversational B s query sid now).answer = v ∧
      ∀ b, Event.genCall b ∉ (enhancedConversational B s query sid now).events) := by
  rcases hf : (find_similar_qa B.sim s.kb query 0.85 4 now).1 with _ | qa
  · refine ⟨?_, fun _ => rfl, ?_⟩
    · rcases hres : (baseConversational B s query sid now).res with e | ⟨a, h2⟩
      · rcases hflag : s.addLoaded with _ | _
        · rw [enhanced_errNoFlag hf hres hflag]
          simp [hf]
        · rcases hretry : (baseConversational B { s with addLoaded := false }
              query sid now).res with e2 | ⟨a2, h3⟩
          · rw [enhanced_errFlagRetryErr hf hres hflag hretry]
            simp [hf]
          · rw [enhanced_errFlagRetryOk hf hres hflag hretry]
            simp [hf]
      · rw [enhanced_missOk hf hres]
        simp [hf]
    · intro v _ hcache
      have hbase := base_cacheHit hcache
      have hres : (baseConversational B s query sid now).res =
          .ok (v, histOf s sid) := by rw [hbase]
      rw [enhanced_missOk hf hres]
      refine ⟨rfl, fun b => ?_⟩
      rw [hbase]
      simp
  · refine ⟨?_, ?_, ?_⟩
    · rw [enhanced_semHit hf]
      simp [hf]
    · rintro ⟨b, hb⟩
      rw [enhanced_semHit hf] at hb
      simp at hb
    · intro v hnone
      exact absurd hnone (by simp)

/-- C2 witness: the third part of the amended claim at the concrete
cached state: the answer is served from the exact cache and the
backend is not invoked. -/
theorem c2_witness :
    (enhancedConversational bC2 sC2 "q" "s" 0).answer = "cached" ∧
    ∀ b, Event.genCall b ∉ (enhancedConversational bC2 sC2 "q" "s" 0).events :=
  (c2_amended bC2 sC2 "q" "s" 0).2.2 "cached" rfl
    (by simp [sC2, keyC2, bC2, cacheGetOp, lookupA])

/-- C5 (counterexample): a generation failure whose cause is an API
error — not supplementary-corpus unavailability — still triggers the
degrade retry when supplementary documents are loaded: the events show
two backend invocations, and the run ends in FAIL only after the
second failure. -/
theorem c5_counterexample :
    bFail.ragGen "q" [] = .error GenFailure.apiError ∧
    (enhancedConversational bFail sC5 "q" "s" 0).events =
      [Event.semLookup false, Event.exactLookup false, Event.genCall false,
        Event.exactLookup false, Event.genCall false] ∧
    (enhancedConversational bFail sC5 "q" "s" 0).outcome = Outcome.failed := by
  have hf : (find_similar_qa bFail.sim sC5.kb "q" 0.85 4 0).1 = none := rfl
  have hc : cacheGetOp sC5.cache (makeCacheKey bFail.hash "q" "s") 0 = none := rfl
  have hg : genOf bFail "q" (histOf sC5 "s") = .error GenFailure.apiError := rfl
  have hres : (baseConversational bFail sC5 "q" "s" 0).res =
      .error GenFailure.apiError := by rw [base_missGenErr hc hg]
  have hflag : sC5.addLoaded = true := rfl
  have hc2 : cacheGetOp (sC5 : SysState).cache
      (makeCacheKey bFail.hash "q" "s") 0 = none := rfl
  have hretry : (baseConversational bFail { sC5 with addLoaded := false }
      "q" "s" 0).res = .error GenFailure.apiError := by
    have hc' : cacheGetOp ({ sC5 with addLoaded := false } : SysState).cache
        (makeCacheKey bFail.hash "q" "s") 0 = none := rfl
    have hg' : genOf bFail "q" (histOf { sC5 with addLoaded := false } "s") =
        .error GenFailure.apiError := rfl
    rw [base_missGenErr hc' hg']
  refine ⟨rfl, ?_, ?_⟩
  · rw [enhanced_errFlagRetryErr hf hres hflag hretry]
    rw [base_missGenErr hc hg]
    have hri := base_err_inv hretry
    rw [hri]
    rfl
  · rw [enhanced_errFlagRetryErr hf hres hflag hretry]

/-- C5 (amended): on a semantic miss whose base call fails with any
cause `e`, the orchestrator retries exactly when the
supplementary-documents flag is set — the retry is an identical base
call (same query, history and corpus), not a reduced-context one, and
it happens regardless of the failure cause; without the flag the run
fails immediately, and a failing retry also ends in FAIL with the
fixed apology. -/
theorem c5_amended (B : Backend) (s : SysState) (query sid : String)
    (now : ℚ) (e : GenFailure)
    (hf : (find_similar_qa B.sim s.kb query 0.85 4 now).1 = none)
    (hres : (baseConversational B s query sid now).res = .error e) :
    (s.addLoaded = false →
      (enhancedConversational B s query sid now).events =
        [Event.semLookup false, Event.exactLookup false, Event.genCall false] ∧
      (enhancedConversational B s query sid now).answer = fallbackAnswer ∧
      (enhancedConversational B s query sid now).outcome = Outcome.failed) ∧
    (s.addLoaded = true →
      ((enhancedConversational B s query sid now).events =
        Event.semLookup false :: Event.exactLookup false ::
          Event.genCall false ::
          (baseConversational B { s with addLoaded := false } query sid now).events) ∧
      (∀ a2 h3, (baseConversational B { s with addLoaded := false }
          query sid now).res = .ok (a2, h3) →
        (enhancedConversational B s query sid now).answer = a2 ∧
        (enhancedConversational B s query sid now).outcome = Outcome.degradedOk) ∧
      (∀ e2, (baseConversational B { s with addLoaded := false }
          query sid now).res = .error e2 →
        (enhancedConversational B s query sid now).answer = fallbackAnswer ∧
        (enhancedConversational B s query sid now).outcome = Outcome.failed)) := by
  have hbase := base_err_inv hres
  constructor
  · intro hflag
    rw [enhanced_errNoFlag hf hres hflag, hbase]
    exact ⟨rfl, rfl, rfl⟩
  · intro hflag
    refine ⟨?_, ?_, ?_⟩
    · rcases hretry : (baseConversational B { s with addLoaded := false }
          query sid now).res with e2 | ⟨a2, h3⟩
      · rw [enhanced_errFlagRetryErr hf hres hflag hretry, hbase]
        rfl
      · rw [enhanced_errFlagRetryOk hf hres hflag hretry, hbase]
        rfl
    · intro a2 h3 hretry
      rw [enhanced_errFlagRetryOk hf hres hflag hretry]
      exact ⟨rfl, rfl⟩
    · intro e2 hretry
      rw [enhanced_errFlagRetryErr hf hres hflag hretry]
      exact ⟨rfl, rfl⟩

/-- C5 witness: the amended characterization at the concrete failing
backend with the flag set and a failing retry. -/
theorem c5_witness :
    (enhancedConversational bFail sC5 "q" "s" 0).answer = fallbackAnswer ∧
    (enhancedConversational bFail sC5 "q" "s" 0).outcome = Outcome.failed := by
  have hf : (find_similar_qa bFail.sim sC5.kb "q" 0.85 4 0).1 = none := rfl
  have hc : cacheGetOp sC5.cache (makeCacheKey bFail.hash "q" "s") 0 = none := rfl
  have hg : genOf bFail "q" (histOf sC5 "s") = .error GenFailure.apiError := rfl
  have hres : (baseConversational bFail sC5 "q" "s" 0).res =
      .error GenFailure.apiError := by rw [base_missGenErr hc hg]
  have hretry : (baseConversational bFail { sC5 with addLoaded := false }
      "q" "s" 0).res = .error GenFailure.apiError := by
    have hc' : cacheGetOp ({ sC5 with addLoaded := false } : SysState).cache
        (makeCacheKey bFail.hash "q" "s") 0 = none := rfl
    have hg' : genOf bFail "q" (histOf { sC5 with addLoaded := false } "s") =
        .error GenFailure.apiError := rfl
    rw [base_missGenErr hc' hg']
  exact ((c5_amended bFail sC5 "q" "s" 0 GenFailure.apiError hf hres).2 rfl).2.2
    GenFailure.apiError hretry

/-- C6 (confirmed): an orchestrate run ending in FAIL returns the
fixed apology with an empty history, and leaves the session
histories, the exact-match cache, the semantic knowledge base and the
rating pointers exactly as they were before the call. -/
theorem c6_theorem (B : Backend) (s : SysState) (query sid : String)
    (now : ℚ)
    (hfail : (enhancedConversational B s query sid now).outcome = Outcome.failed) :
    (enhancedConversational B s query sid now).answer = fallbackAnswer ∧
    (enhancedConversational B s query sid now).history = [] ∧
    (enhancedConversational B s query sid now).state.cache = s.cache ∧
    (enhancedConversational B s query sid now).state.hist = s.hist ∧
    (enhancedConversational B s query sid now).state.kb = s.kb ∧
    (enhancedConversational B s query sid now).state.lastQaId = s.lastQaId := by
  rcases hf : (find_similar_qa B.sim s.kb query 0.85 4 now).1 with _ | qa
  · rcases hres : (baseConversational B s query sid now).res with e | ⟨a, h2⟩
    · have hbase := base_err_inv hres
      rcases hflag : s.addLoaded with _ | _
      · rw [enhanced_errNoFlag hf hres hflag, hbase]
        exact ⟨rfl, rfl, rfl, rfl, rfl, rfl⟩
      · rcases hretry : (baseConversational B { s with addLoaded := false }
            query sid now).res with e2 | ⟨a2, h3⟩
        · have hretrybase := base_err_inv hretry
          rw [enhanced_errFlagRetryErr hf hres hflag hretry, hretrybase]
          exact ⟨rfl, rfl, rfl, rfl, rfl, rfl⟩
        · rw [enhanced_errFlagRetryOk hf hres hflag hretry] at hfail
          simp at hfail
    · rw [enhanced_missOk hf hres] at hfail
      rcases hb : (baseConversational B s query sid now).hit with _ | _ <;>
        rw [hb] at hfail <;> simp at hfail
  · rw [enhanced_semHit hf] at hfail
    simp at hfail

/-- C6 witness: the concrete failing run (no supplementary documents,
generation fails) returns the apology with empty history and leaves
every store untouched. -/
theorem c6_witness :
    (enhancedConversational bFail sC6 "q" "s" 0).answer = fallbackAnswer ∧
    (enhancedConversational bFail sC6 "q" "s" 0).history = [] ∧
    (enhancedConversational bFail sC6 "q" "s" 0).state.cache = sC6.cache ∧
    (enhancedConversational bFail sC6 "q" "s" 0).state.hist = sC6.hist ∧
    (enhancedConversational bFail sC6 "q" "s" 0).state.kb = sC6.kb ∧
    (enhancedConversational bFail sC6 "q" "s" 0).state.lastQaId = sC6.lastQaId := by
  have hf : (find_similar_qa bFail.sim sC6.kb "q" 0.85 4 0).1 = none := rfl
  have hc : cacheGetOp sC6.cache (makeCacheKey bFail.hash "q" "s") 0 = none := rfl
  have hg : genOf bFail "q" (histOf sC6 "s") = .error GenFailure.apiError := rfl
  have hres : (baseConversational bFail sC6 "q" "s" 0).res =
      .error GenFailure.apiError := by rw [base_missGenErr hc hg]
  have hfail : (enhancedConversational bFail sC6 "q" "s" 0).outcome =
      Outcome.failed := by
    rw [enhanced_errNoFlag hf hres rfl]
  exact c6_theorem bFail sC6 "q" "s" 0 hfail

section C3SortLemmas

/-- Inserting into a list split around a pivot `n` whose key dominates
the tail: the pivot keeps its splitting role, and removing it yields
the insertion into the list without the pivot. -/
theorem insertByDesc_split {α : Type} (f : α → ℚ) (a n : α) (s1 s2 : List α)
    (h : ∀ y ∈ s2, f y ≤ f n) :
    ∃ t1 t2, insertByDesc f a (s1 ++ n :: s2) = t1 ++ n :: t2 ∧
      insertByDesc f a (s1 ++ s2) = t1 ++ t2 ∧
      (t2 = s2 ∨ (f a ≤ f n ∧ t2 = insertByDesc f a s2)) := by
  induction s1 with
  | nil =>
      by_cases hc : f n < f a
      · refine ⟨[a], s2, ?_, ?_, Or.inl rfl⟩
        · simp [insertByDesc, hc]
        · cases s2 with
          | nil => simp [insertByDesc]
          | cons b t =>
              have hb : f b < f a := lt_of_le_of_lt (h b (by simp)) hc
              simp [insertByDesc, hb]
      · refine ⟨[], insertByDesc f a s2, ?_, ?_, Or.inr ⟨not_lt.mp hc, rfl⟩⟩
        · simp [insertByDesc, hc]
        · simp
  | cons y s1' ih =>
      by_cases hc : f y < f a
      · refine ⟨a :: y :: s1', s2, ?_, ?_, Or.inl rfl⟩
        · simp [insertByDesc, hc]
        · simp [insertByDesc, hc]
      · rcases ih with ⟨t1, t2, h1, h2, h3⟩
        refine ⟨y :: t1, t2, ?_, ?_, h3⟩
        · simpa [insertByDesc, hc] using h1
        · simpa [insertByDesc, hc] using h2

/-- Sorting a list with one appended element: the sort of the longer
list is the sort of the shorter one with the new element inserted at
one position, and everything after the new element has a smaller or
equal key. -/
theorem sortByDesc_append_one {α : Type} (f : α → ℚ) (l : List α) (n : α) :
    ∃ s1 s2, sortByDesc f (l ++ [n]) = s1 ++ n :: s2 ∧
      sortByDesc f l = s1 ++ s2 ∧ (∀ y ∈ s2, f y ≤ f n) := by
  induction l with
  | nil => exact ⟨[], [], rfl, rfl, by simp⟩
  | cons a l' ih =>
      rcases ih with ⟨s1, s2, h1, h2, h3⟩
      rcases insertByDesc_split f a n s1 s2 h3 with ⟨t1, t2, g1, g2, g3⟩
      refine ⟨t1, t2, ?_, ?_, ?_⟩
      · show insertByDesc f a (sortByDesc f (l' ++ [n])) = t1 ++ n :: t2
        rw [h1]; exact g1
      · show insertByDesc f a (sortByDesc f l') = t1 ++ t2
        rw [h2]; exact g2
      · rcases g3 with rfl | ⟨hle, rfl⟩
        · exact h3
        · intro y hy
          rcases mem_insertByDesc hy with rfl | hy'
          · exact hle
          · exact h3 y hy'

/-- An element of the k-prefix of a list with one inserted pivot is
the pivot or an element of the k-prefix without the pivot. -/
theorem take_middle_subset {α : Type} (k : ℕ) (s1 s2 : List α) (n x : α)
    (h : x ∈ (s1 ++ n :: s2).take k) : x = n ∨ x ∈ (s1 ++ s2).take k := by
  induction s1 generalizing k with
  | nil =>
      cases k with
      | zero => simp at h
      | succ k' =>
          simp only [List.nil_append, List.take_succ_cons, List.mem_cons] at h
          rcases h with rfl | h
          · exact Or.inl rfl
          · right
            have hsub : s2.take k' ⊆ s2.take (k' + 1) := by
              intro z hz
              have h1 : s2.take k' = (s2.take (k' + 1)).take k' := by
                rw [List.take_take]
                congr 1
                omega
              rw [h1] at hz
              exact List.take_subset _ _ hz
            simpa using hsub h
  | cons a s1' ih =>
      cases k with
      | zero => simp at h
      | succ k' =>
          simp only [List.cons_append, List.take_succ_cons, List.mem_cons] at h
          rcases h with rfl | h
          · right; simp [List.take_succ_cons]
          · rcases ih k' h with h' | h'
            · exact Or.inl h'
            · right
              simp only [List.cons_append, List.take_succ_cons, List.mem_cons]
              exact Or.inr h'

/-- A semantic miss survives appending a fresh entry whose rating is
below the threshold (the write-through of a freshly generated answer,
rated 3.5 < 4): the search still reports no hit, at any later time. -/
theorem find_similar_none_append {sim : String → String → ℚ}
    {kb : List QAEntry} {q : String} {thr mr : ℚ} {now now2 : ℚ}
    {n : QAEntry}
    (h : (find_similar_qa sim kb q thr mr now).1 = none)
    (hn : decide (mr ≤ n.rating) = false) :
    (find_similar_qa sim (kb ++ [n]) q thr mr now2).1 = none := by
  have hfind : (similaritySearch sim kb q 5 thr).find?
      (fun p => decide (mr ≤ p.1.rating)) = none := by
    unfold find_similar_qa at h
    rcases hf : (similaritySearch sim kb q 5 thr).find?
        (fun p => decide (mr ≤ p.1.rating)) with _ | p
    · exact hf
    · rw [hf] at h; simp at h
  have hnone : (similaritySearch sim (kb ++ [n]) q 5 thr).find?
      (fun p => decide (mr ≤ p.1.rating)) = none := by
    rw [List.find?_eq_none] at hfind ⊢
    intro p hp
    have hstruct : (kb ++ [n]).map (fun e => (e, sim q e.question)) =
        kb.map (fun e => (e, sim q e.question)) ++ [(n, sim q n.question)] := by
      rw [List.map_append]; rfl
    rcases hkeep : decide (thr ≤ sim q n.question) with _ | _
    · -- the new entry is filtered out: the search is unchanged
      have hsame : similaritySearch sim (kb ++ [n]) q 5 thr =
          similaritySearch sim kb q 5 thr := by
        unfold similaritySearch
        rw [hstruct, List.filter_append]
        have : [((n : QAEntry), sim q n.question)].filter
            (fun p => decide (thr ≤ p.2)) = [] := by
          simp [List.filter_cons, hkeep]
        rw [this, List.append_nil]
      rw [hsame] at hp
      exact hfind p hp
    · -- the new entry enters the filtered list at the end
      have hsplit : ((kb.map (fun e => (e, sim q e.question))).filter
            (fun p => decide (thr ≤ p.2))) ++ [(n, sim q n.question)] =
          ((kb ++ [n]).map (fun e => (e, sim q e.question))).filter
            (fun p => decide (thr ≤ p.2)) := by
        rw [hstruct, List.filter_append]
        have : [((n : QAEntry), sim q n.question)].filter
            (fun p => decide (thr ≤ p.2)) = [(n, sim q n.question)] := by
          simp [List.filter_cons, hkeep]
        rw [this]
      rcases sortByDesc_append_one (fun p : QAEntry × ℚ => p.2)
          ((kb.map (fun e => (e, sim q e.question))).filter
            (fun p => decide (thr ≤ p.2))) (n, sim q n.question) with
        ⟨s1, s2, hs1, hs2, _⟩
      have hp' : p ∈ (s1 ++ (n, sim q n.question) :: s2).take 5 := by
        unfold similaritySearch at hp
        rw [← hsplit, hs1] at hp
        exact hp
      rcases take_middle_subset 5 s1 s2 (n, sim q n.question) p hp' with rfl | hmem
      · intro hcontra
        have hc2 : decide (mr ≤ n.rating) = true := hcontra
        rw [hn] at hc2
        exact absurd hc2 (by simp)
      · have : p ∈ similaritySearch sim kb q 5 thr := by
          unfold similaritySearch
          rw [hs2]
          exact hmem
        exact hfind p this
  unfold find_similar_qa
  rw [hnone]

/-- The hit decision of `find_similar_qa` does not depend on the call
time (the time only enters the usage-statistics side effect). -/
theorem find_similar_fst_time {sim : String → String → ℚ}
    {kb : List QAEntry} {q : String} {thr mr : ℚ} (now now2 : ℚ) :
    (find_similar_qa sim kb q thr mr now).1 =
      (find_similar_qa sim kb q thr mr now2).1 := by
  unfold find_similar_qa
  rcases hf : (similaritySearch sim kb q 5 thr).find?
      (fun p => decide (mr ≤ p.1.rating)) with _ | p <;> rw [hf]

/-- A hit of `find_similar_qa` is a stored entry, and the updated
store is the usage bump at its id. -/
theorem find_similar_qa_some_facts {sim : String → String → ℚ}
    {kb : List QAEntry} {q : String} {thr mr now : ℚ} {e : QAEntry}
    (h : (find_similar_qa sim kb q thr mr now).1 = some e) :
    e ∈ kb ∧ (find_similar_qa sim kb q thr mr now).2 =
      updateUsageStats kb e.id now := by
  unfold find_similar_qa at h ⊢
  rcases hf : (similaritySearch sim kb q 5 thr).find?
      (fun p => decide (mr ≤ p.1.rating)) with _ | p
  · rw [hf] at h; simp at h
  · rw [hf] at h
    simp only [Option.some.injEq] at h
    subst h
    refine ⟨(mem_similaritySearch (List.mem_of_find?_eq_some hf)).1, ?_⟩
    rw [hf]

/-- Evaluation of a cache read through a successful raw lookup. -/
theorem cacheGetOp_eq_of_lookup {c : List (String × CacheEntry)} {k : String}
    {e : CacheEntry} (hl : lookupA c k = some e) (t : ℚ) :
    cacheGetOp c k t =
      match e.expiresAt with
      | some exp =>
          if t < exp then (if e.value = "" then none else some e.value)
          else none
      | none => if e.value = "" then none else some e.value := by
  unfold cacheGetOp
  rw [hl]

/-- Reading a cache whose entries carry no expiry gives the same
result at every time. -/
theorem cacheGetOp_time {c : List (String × CacheEntry)} {k : String}
    (hc : ∀ p ∈ c, p.2.expiresAt = none) (t t' : ℚ) :
    cacheGetOp c k t = cacheGetOp c k t' := by
  rcases hl : lookupA c k with _ | e
  · unfold cacheGetOp
    rw [hl]
  · have hmem : e.expiresAt = none := by
      unfold lookupA at hl
      rcases hf : c.find? (fun p => p.1 == k) with _ | p
      · rw [hf] at hl; simp at hl
      · rw [hf] at hl
        simp at hl
        subst hl
        exact hc p (List.mem_of_find?_eq_some hf)
    rw [cacheGetOp_eq_of_lookup hl t, cacheGetOp_eq_of_lookup hl t', hmem]

end C3SortLemmas

section C3CongrLemmas

/-- Filtering a mapped list. -/
theorem filter_map_comm {α β : Type} (f : α → β) (p : β → Bool) (l : List α) :
    (l.map f).filter p = (l.filter (fun x => p (f x))).map f := by
  induction l with
  | nil => rfl
  | cons a t ih =>
      rcases h : p (f a) with _ | _ <;>
        simp [List.filter_cons, h, ih]

/-- Searching a mapped list. -/
theorem find?_map_comm {α β : Type} (f : α → β) (p : β → Bool) (l : List α) :
    (l.map f).find? p = (l.find? (fun x => p (f x))).map f := by
  induction l with
  | nil => rfl
  | cons a t ih =>
      rcases h : p (f a) with _ | _ <;>
        simp [List.find?, h, ih]

/-- Taking a prefix of a mapped list. -/
theorem take_map_comm {α β : Type} (f : α → β) (l : List α) (k : ℕ) :
    (l.map f).take k = (l.take k).map f := by
  induction l generalizing k with
  | nil => simp
  | cons a t ih =>
      cases k with
      | zero => rfl
      | succ n =>
          rw [List.map_cons, List.take_succ_cons, ih n, List.take_succ_cons,
            List.map_cons]

/-- Inserting through a key-preserving relabeling. -/
theorem insertByDesc_map_comm {α : Type} (f : α → ℚ) (G : α → α)
    (hG : ∀ a, f (G a) = f a) (x : α) (l : List α) :
    insertByDesc f (G x) (l.map G) = (insertByDesc f x l).map G := by
  induction l with
  | nil => rfl
  | cons y t ih =>
      by_cases h : f y < f x
      · simp only [List.map_cons, insertByDesc, hG]
        rw [if_pos h, if_pos h]
        rfl
      · simp only [List.map_cons, insertByDesc, hG]
        rw [if_neg h, if_neg h, ih]
        rfl

/-- Sorting through a key-preserving relabeling. -/
theorem sortByDesc_map_comm {α : Type} (f : α → ℚ) (G : α → α)
    (hG : ∀ a, f (G a) = f a) (l : List α) :
    sortByDesc f (l.map G) = (sortByDesc f l).map G := by
  induction l with
  | nil => rfl
  | cons a t ih =>
      show insertByDesc f (G a) (sortByDesc f (t.map G)) =
        (insertByDesc f a (sortByDesc f t)).map G
      rw [ih, insertByDesc_map_comm f G hG]

/-- The hit decision and the returned answer of `find_similar_qa` are
stable under an entry relabeling that preserves questions and
ratings: searching the relabeled store returns the relabeled hit. -/
theorem find_similar_qa_map_stable {sim : String → String → ℚ}
    {kb : List QAEntry} {q : String} {thr mr : ℚ} (now now2 : ℚ)
    (g : QAEntry → QAEntry)
    (hq : ∀ x, (g x).question = x.question)
    (hr : ∀ x, (g x).rating = x.rating) :
    (find_similar_qa sim (kb.map g) q thr mr now2).1 =
      ((find_similar_qa sim kb q thr mr now).1).map g := by
  have hmap : (kb.map g).map (fun e => (e, sim q e.question)) =
      (kb.map (fun e => (e, sim q e.question))).map
        (fun p => (g p.1, p.2)) := by
    rw [List.map_map, List.map_map]
    refine List.map_congr_left (fun e _ => ?_)
    show (g e, sim q (g e).question) = (g e, sim q e.question)
    rw [hq e]
  have hsearch : similaritySearch sim (kb.map g) q 5 thr =
      (similaritySearch sim kb q 5 thr).map (fun p => (g p.1, p.2)) := by
    unfold similaritySearch
    rw [hmap, filter_map_comm, sortByDesc_map_comm
      (fun p : QAEntry × ℚ => p.2) (fun p => (g p.1, p.2)) (fun _ => rfl),
      take_map_comm]
  unfold find_similar_qa
  rw [hsearch, find?_map_comm]
  have hpred : (fun x : QAEntry × ℚ =>
      decide (mr ≤ ((fun p : QAEntry × ℚ => (g p.1, p.2)) x).1.rating)) =
      (fun p : QAEntry × ℚ => decide (mr ≤ p.1.rating)) := by
    funext x
    show decide (mr ≤ (g x.1).rating) = decide (mr ≤ x.1.rating)
    rw [hr x.1]
  rw [hpred]
  rcases hf : (similaritySearch sim kb q 5 thr).find?
      (fun p : QAEntry × ℚ => decide (mr ≤ p.1.rating)) with _ | p <;> rfl

/-- On a store with distinct ids, the usage bump of a stored entry is
a pointwise relabeling that preserves id, question, answer and
rating. -/
theorem updateUsageStats_eq_map {kb : List QAEntry} {e : QAEntry} {now : ℚ}
    (hmem : e ∈ kb) (hnodup : (kb.map QAEntry.id).Nodup) :
    updateUsageStats kb e.id now =
      kb.map (fun x => if x.id == e.id
        then { x with usage_count := x.usage_count + 1, last_used := now }
        else x) := by
  have hinj : ∀ x ∈ kb, ∀ y ∈ kb, x.id = y.id → x = y := by
    intro x hx y hy hxy
    exact List.inj_on_of_nodup_map hnodup hx hy hxy
  have hget : getQAById kb e.id = some e := by
    rcases hf : getQAById kb e.id with _ | e'
    · unfold getQAById at hf
      rw [List.find?_eq_none] at hf
      exact absurd (by simp : (e.id == e.id) = true) (by simpa using hf e hmem)
    · unfold getQAById at hf
      have he' : e' ∈ kb := List.mem_of_find?_eq_some hf
      have hid : e'.id = e.id := by simpa using List.find?_some hf
      have heq := hinj e' he' e hmem hid
      rw [heq]
  unfold updateUsageStats
  rw [hget]
  unfold updateQAEntryInKB
  refine List.map_congr_left (fun x hx => ?_)
  rcases hb : x.id == e.id with _ | _
  · rw [if_neg (by simp [hb]), if_neg (by simp [hb])]
  · have hxe : x = e := hinj x hx e hmem (by simpa using hb)
    rw [if_pos (by simp [hb]), if_pos (by simp [hb]), hxe]

end C3CongrLemmas

section C3Inversion

/-- A failing base call came through a cache miss and a generation
failure. -/
theorem base_err_components {B : Backend} {s : SysState} {query sid : String}
    {now : ℚ} {e : GenFailure}
    (h : (baseConversational B s query sid now).res = .error e) :
    cacheGetOp s.cache (makeCacheKey B.hash query sid) now = none ∧
    genOf B query (histOf s sid) = .error e := by
  rcases hc : cacheGetOp s.cache (makeCacheKey B.hash query sid) now with _ | v
  · rcases hg : genOf B query (histOf s sid) with e' | a
    · rw [base_missGenErr hc hg] at h
      simp only [Except.error.injEq] at h
      subst h
      exact ⟨rfl, rfl⟩
    · rw [base_missGenOk hc hg] at h
      simp at h
  · rw [base_cacheHit hc] at h
    simp at h

/-- A successful base call with the hit flag set was an exact-cache
hit: the answer is the cached value, the history is the untouched
session history, and the state is unchanged. -/
theorem base_hit_components {B : Backend} {s : SysState} {query sid : String}
    {now : ℚ} {a : String} {h2 : List Msg}
    (hres : (baseConversational B s query sid now).res = .ok (a, h2))
    (hhit : (baseConversational B s query sid now).hit = true) :
    cacheGetOp s.cache (makeCacheKey B.hash query sid) now = some a ∧
    h2 = histOf s sid ∧
    baseConversational B s query sid now =
      ⟨.ok (a, histOf s sid), s, [.exactLookup true], true⟩ := by
  rcases hc : cacheGetOp s.cache (makeCacheKey B.hash query sid) now with _ | v
  · rcases hg : genOf B query (histOf s sid) with e' | a'
    · rw [base_missGenErr hc hg] at hres
      simp at hres
    · rw [base_missGenOk hc hg] at hhit
      simp at hhit
  · have hb := base_cacheHit hc
    rw [hb] at hres
    simp only [Except.ok.injEq, Prod.mk.injEq] at hres
    rcases hres with ⟨rfl, rfl⟩
    exact ⟨rfl, rfl, hb⟩

/-- A successful base call without the hit flag was a cache miss
followed by a successful generation: the exchange is appended to the
history and the answer is written through with no TTL. -/
theorem base_gen_components {B : Backend} {s : SysState} {query sid : String}
    {now : ℚ} {a : String} {h2 : List Msg}
    (hres : (baseConversational B s query sid now).res = .ok (a, h2))
    (hhit : (baseConversational B s query sid now).hit = false) :
    cacheGetOp s.cache (makeCacheKey B.hash query sid) now = none ∧
    genOf B query (histOf s sid) = .ok a ∧
    baseConversational B s query sid now =
      ⟨.ok (a, histOf s sid ++ [⟨.user, query⟩, ⟨.assistant, a⟩]),
        { s with
          hist := setA s.hist sid
            (histOf s sid ++ [⟨.user, query⟩, ⟨.assistant, a⟩]),
          cache := cacheSetOp s.cache (makeCacheKey B.hash query sid)
            a none now },
        [.exactLookup false, .genCall true], false⟩ := by
  rcases hc : cacheGetOp s.cache (makeCacheKey B.hash query sid) now with _ | v
  · rcases hg : genOf B query (histOf s sid) with e' | a'
    · rw [base_missGenErr hc hg] at hres
      simp at hres
    · have hb := base_missGenOk hc hg
      rw [hb] at hres
      simp only [Except.ok.injEq, Prod.mk.injEq] at hres
      rcases hres with ⟨rfl, rfl⟩
      exact ⟨rfl, rfl, hb⟩
  · rw [base_cacheHit hc] at hhit
    simp at hhit

end C3Inversion

/-- C3 (counterexample): when the first orchestrate call ends in FAIL
(generation failing for both the original call and the retry), nothing
is cached, so a second identical call invokes the generation backend
again — the claim's "the second call does not invoke the generation
backend" fails on the failure path. -/
theorem c3_counterexample :
    (enhancedConversational bFail sC5 "q" "s" 0).outcome = Outcome.failed ∧
    (enhancedConversational bFail
        (enhancedConversational bFail sC5 "q" "s" 0).state "q" "s" 1).events =
      [Event.semLookup false, Event.exactLookup false, Event.genCall false] ∧
    Event.genCall false ∈ (enhancedConversational bFail
        (enhancedConversational bFail sC5 "q" "s" 0).state "q" "s" 1).events := by
  have hf : (find_similar_qa bFail.sim sC5.kb "q" 0.85 4 0).1 = none := rfl
  have hc : cacheGetOp sC5.cache (makeCacheKey bFail.hash "q" "s") 0 = none := rfl
  have hg : genOf bFail "q" (histOf sC5 "s") = .error GenFailure.apiError := rfl
  have hres : (baseConversational bFail sC5 "q" "s" 0).res =
      .error GenFailure.apiError := by rw [base_missGenErr hc hg]
  have hretry : (baseConversational bFail { sC5 with addLoaded := false }
      "q" "s" 0).res = .error GenFailure.apiError := by
    have hc' : cacheGetOp ({ sC5 with addLoaded := false } : SysState).cache
        (makeCacheKey bFail.hash "q" "s") 0 = none := rfl
    have hg' : genOf bFail "q" (histOf { sC5 with addLoaded := false } "s") =
        .error GenFailure.apiError := rfl
    rw [base_missGenErr hc' hg']
  have h1 := enhanced_errFlagRetryErr hf hres rfl hretry
  have hretinv := base_err_inv hretry
  have hstate : (enhancedConversational bFail sC5 "q" "s" 0).state =
      { sC5 with addLoaded := false } := by
    rw [h1, hretinv]
  have hf2 : (find_similar_qa bFail.sim
      ({ sC5 with addLoaded := false } : SysState).kb "q" 0.85 4 1).1 = none := rfl
  have hc2 : cacheGetOp ({ sC5 with addLoaded := false } : SysState).cache
      (makeCacheKey bFail.hash "q" "s") 1 = none := rfl
  have hg2 : genOf bFail "q" (histOf { sC5 with addLoaded := false } "s") =
      .error GenFailure.apiError := rfl
  have hres2 : (baseConversational bFail { sC5 with addLoaded := false }
      "q" "s" 1).res = .error GenFailure.apiError := by
    rw [base_missGenErr hc2 hg2]
  have h2 := enhanced_errNoFlag hf2 hres2 rfl
  have hev : (enhancedConversational bFail
      (enhancedConversational bFail sC5 "q" "s" 0).state "q" "s" 1).events =
      [Event.semLookup false, Event.exactLookup false, Event.genCall false] := by
    rw [hstate, h2, base_missGenErr hc2 hg2]
  refine ⟨by rw [h1], hev, ?_⟩
  rw [hev]
  simp

/-- C3 (amended): two consecutive identical orchestrate calls with no
intervening rating or sweep return the same answer and the second does
not invoke the generation backend, provided the first call does not
end in FAIL and returns a non-empty answer (modelling side conditions:
stored entry ids are distinct and pre-existing exact-cache entries
carry no expiry, as all entries written by the engine do). -/
theorem c3_amended (B : Backend) (s : SysState) (query sid : String)
    (now1 now2 : ℚ)
    (hnodup : (s.kb.map QAEntry.id).Nodup)
    (hcache : ∀ p ∈ s.cache, p.2.expiresAt = none)
    (hok : (enhancedConversational B s query sid now1).outcome ≠ Outcome.failed)
    (hne : (enhancedConversational B s query sid now1).answer ≠ "") :
    (enhancedConversational B (enhancedConversational B s query sid now1).state
        query sid now2).answer =
      (enhancedConversational B s query sid now1).answer ∧
    ∀ b, Event.genCall b ∉
      (enhancedConversational B (enhancedConversational B s query sid now1).state
        query sid now2).events := by
  rcases hf : (find_similar_qa B.sim s.kb query 0.85 4 now1).1 with _ | qa
  · rcases hres : (baseConversational B s query sid now1).res with e | ⟨a, h2⟩
    · rcases hflag : s.addLoaded with _ | _
      · rw [enhanced_errNoFlag hf hres hflag] at hok
        simp at hok
      · rcases hretry : (baseConversational B { s with addLoaded := false }
            query sid now1).res with e2 | ⟨a2, h3⟩
        · rw [enhanced_errFlagRetryErr hf hres hflag hretry] at hok
          simp at hok
        · have h1 := enhanced_errFlagRetryOk hf hres hflag hretry
          have hcomp := base_err_components hres
          rcases hhit2 : (baseConversational B { s with addLoaded := false }
              query sid now1).hit with _ | _
          · have hinv := base_gen_components hretry hhit2
            have ha2 : a2 ≠ "" := by
              rw [h1] at hne
              exact hne
            have hf2 : (find_similar_qa B.sim
                (enhancedConversational B s query sid now1).state.kb
                query 0.85 4 now2).1 = none := by
              rw [h1, hinv.2.2]
              show (find_similar_qa B.sim s.kb query 0.85 4 now2).1 = none
              exact (find_similar_fst_time now2 now1).trans hf
            have hcget : cacheGetOp
                (enhancedConversational B s query sid now1).state.cache
                (makeCacheKey B.hash query sid) now2 = some a2 := by
              rw [h1, hinv.2.2]
              show cacheGetOp
                (cacheSetOp s.cache (makeCacheKey B.hash query sid) a2 none now1)
                (makeCacheKey B.hash query sid) now2 = some a2
              unfold cacheSetOp
              rw [cacheGetOp_eq_of_lookup
                (lookupA_setA_self s.cache (makeCacheKey B.hash query sid)
                  ⟨a2, none⟩) now2]
              simp [ha2]
            have hbase2 := base_cacheHit hcget
            have hres2 : (baseConversational B
                (enhancedConversational B s query sid now1).state query sid
                now2).res = .ok (a2, histOf
                  (enhancedConversational B s query sid now1).state sid) := by
              rw [hbase2]
            have h2run := enhanced_missOk hf2 hres2
            constructor
            · rw [h2run, h1]
            · intro b
              rw [h2run, hbase2]
              simp
          · have hinv := base_hit_components hretry hhit2
            have hcontra : cacheGetOp s.cache (makeCacheKey B.hash query sid)
                now1 = some a2 := hinv.1
            rw [hcomp.1] at hcontra
            simp at hcontra
    · have h1 := enhanced_missOk hf hres
      have ha : a ≠ "" := by
        rw [h1] at hne
        exact hne
      have hrate : decide ((4 : ℚ) ≤ (mkQAEntry (B.genId query) query a
          (B.sourcesOf a) (some sid) 3.5 now1).rating) = false := by
        have hr : (mkQAEntry (B.genId query) query a (B.sourcesOf a)
            (some sid) 3.5 now1).rating = 3.5 := rfl
        rw [hr]
        exact decide_eq_false (by norm_num)
      have hstate : (enhancedConversational B s query sid now1).state =
          { (baseConversational B s query sid now1).state with
            kb := (baseConversational B s query sid now1).state.kb ++
              [mkQAEntry (B.genId query) query a (B.sourcesOf a)
                (some sid) 3.5 now1],
            lastQaId := setA
              (baseConversational B s query sid now1).state.lastQaId sid
              (B.genId query) } := by
        rw [h1]
        show (if a = "" then _ else _) = _
        exact if_neg ha
      rcases hhit : (baseConversational B s query sid now1).hit with _ | _
      · have hinv := base_gen_components hres hhit
        have hf2 : (find_similar_qa B.sim
            (enhancedConversational B s query sid now1).state.kb
            query 0.85 4 now2).1 = none := by
          rw [hstate, hinv.2.2]
          show (find_similar_qa B.sim
            (s.kb ++ [mkQAEntry (B.genId query) query a (B.sourcesOf a)
              (some sid) 3.5 now1]) query 0.85 4 now2).1 = none
          exact find_similar_none_append hf hrate
        have hcget : cacheGetOp
            (enhancedConversational B s query sid now1).state.cache
            (makeCacheKey B.hash query sid) now2 = some a := by
          rw [hstate, hinv.2.2]
          show cacheGetOp
            (cacheSetOp s.cache (makeCacheKey B.hash query sid) a none now1)
            (makeCacheKey B.hash query sid) now2 = some a
          unfold cacheSetOp
          rw [cacheGetOp_eq_of_lookup
            (lookupA_setA_self s.cache (makeCacheKey B.hash query sid)
              ⟨a, none⟩) now2]
          simp [ha]
        have hbase2 := base_cacheHit hcget
        have hres2 : (baseConversational B
            (enhancedConversational B s query sid now1).state query sid
            now2).res = .ok (a, histOf
              (enhancedConversational B s query sid now1).state sid) := by
          rw [hbase2]
        have h2run := enhanced_missOk hf2 hres2
        constructor
        · rw [h2run, h1]
        · intro b
          rw [h2run, hbase2]
          simp
      · have hinv := base_hit_components hres hhit
        have hf2 : (find_similar_qa B.sim
            (enhancedConversational B s query sid now1).state.kb
            query 0.85 4 now2).1 = none := by
          rw [hstate, hinv.2.2]
          show (find_similar_qa B.sim
            (s.kb ++ [mkQAEntry (B.genId query) query a (B.sourcesOf a)
              (some sid) 3.5 now1]) query 0.85 4 now2).1 = none
          exact find_similar_none_append hf hrate
        have hcget : cacheGetOp
            (enhancedConversational B s query sid now1).state.cache
            (makeCacheKey B.hash query sid) now2 = some a := by
          rw [hstate, hinv.2.2]
          show cacheGetOp s.cache (makeCacheKey B.hash query sid) now2 = some a
          exact (cacheGetOp_time hcache now2 now1).trans hinv.1
        have hbase2 := base_cacheHit hcget
        have hres2 : (baseConversational B
            (enhancedConversational B s query sid now1).state query sid
            now2).res = .ok (a, histOf
              (enhancedConversational B s query sid now1).state sid) := by
          rw [hbase2]
        have h2run := enhanced_missOk hf2 hres2
        constructor
        · rw [h2run, h1]
        · intro b
          rw [h2run, hbase2]
          simp
  · have h1 := @enhanced_semHit B s query sid now1 qa hf
    have facts := find_similar_qa_some_facts hf
    have humap := @updateUsageStats_eq_map s.kb qa now1 facts.1 hnodup
    have hg_q : ∀ x : QAEntry, ((fun x : QAEntry => if x.id == qa.id
        then { x with usage_count := x.usage_count + 1, last_used := now1 }
        else x) x).question = x.question := by
      intro x
      rcases hb : x.id == qa.id with _ | _ <;> simp [hb]
    have hg_r : ∀ x : QAEntry, ((fun x : QAEntry => if x.id == qa.id
        then { x with usage_count := x.usage_count + 1, last_used := now1 }
        else x) x).rating = x.rating := by
      intro x
      rcases hb : x.id == qa.id with _ | _ <;> simp [hb]
    have hg_a : ∀ x : QAEntry, ((fun x : QAEntry => if x.id == qa.id
        then { x with usage_count := x.usage_count + 1, last_used := now1 }
        else x) x).answer = x.answer := by
      intro x
      rcases hb : x.id == qa.id with _ | _ <;> simp [hb]
    have hf2 : (find_similar_qa B.sim
        (enhancedConversational B s query sid now1).state.kb
        query 0.85 4 now2).1 = some ((fun x : QAEntry => if x.id == qa.id
          then { x with usage_count := x.usage_count + 1, last_used := now1 }
          else x) qa) := by
      rw [h1]
      show (find_similar_qa B.sim
        (find_similar_qa B.sim s.kb query 0.85 4 now1).2
        query 0.85 4 now2).1 = _
      rw [facts.2, humap,
        find_similar_qa_map_stable now1 now2 _ hg_q hg_r, hf]
      rfl
    have h2run := @enhanced_semHit B
      (enhancedConversational B s query sid now1).state query sid now2 _ hf2
    constructor
    · rw [h2run, h1]
      show ((fun x : QAEntry => if x.id == qa.id
        then { x with usage_count := x.usage_count + 1, last_used := now1 }
        else x) qa).answer = qa.answer
      exact hg_a qa
    · intro b
      rw [h2run]
      simp

/-- C3 witness: a concrete first call that generates successfully is
followed by an identical call served from the exact cache with the
same answer and no backend invocation. -/
theorem c3_witness :
    (enhancedConversational bC7 (enhancedConversational bC7 sC7 "q" "s" 0).state
        "q" "s" 1).answer = (enhancedConversational bC7 sC7 "q" "s" 0).answer ∧
    ∀ b, Event.genCall b ∉ (enhancedConversational bC7
        (enhancedConversational bC7 sC7 "q" "s" 0).state "q" "s" 1).events := by
  have hf : (find_similar_qa bC7.sim sC7.kb "q" 0.85 4 0).1 = none := rfl
  have hc : cacheGetOp sC7.cache (makeCacheKey bC7.hash "q" "s") 0 = none := rfl
  have hg : genOf bC7 "q" (histOf sC7 "s") = .ok "x" := rfl
  have hb := base_missGenOk hc hg
  have hres : (baseConversational bC7 sC7 "q" "s" 0).res =
      .ok ("x", histOf sC7 "s" ++ [⟨.user, "q"⟩, ⟨.assistant, "x"⟩]) := by
    rw [hb]
  have h1 := enhanced_missOk hf hres
  have hok : (enhancedConversational bC7 sC7 "q" "s" 0).outcome ≠
      Outcome.failed := by
    rw [h1, hb]
    simp
  have hne : (enhancedConversational bC7 sC7 "q" "s" 0).answer ≠ "" := by
    rw [h1]
    simp
  exact c3_amended bC7 sC7 "q" "s" 0 1 (by simp [sC7]) (by simp [sC7]) hok hne
